import Mathlib

/-!
# EmuLauncher: the native bridge between the host and a libretro core

A shallow embedding of `app/src/main/cpp/native-lib.cpp`.

* The process-wide variables of the file are the fields of `Globals`.
* Undefined behaviour of the C++ code (a `memcpy` that leaves its source or
  destination block, a write through a null pointer, a shift of an `int` by 32
  or more, a read past the end of an array) is the result `none`.
* `unsigned` is 32 bits wide and `size_t` 64 bits wide (the LP64 Android
  targets); `malloc` is taken to succeed.
* The loaded core is foreign code.  What an entry point of the core does when
  it is called is a `CoreProg`: a finite tree of calls back into the six
  callbacks of the bridge, whose answers the core may inspect, ending in the
  value the entry point returns together with the core's new private state.
-/

namespace EmuLauncher

/-! ## Data model -/

/-- One byte of memory. -/
abbrev Byte := Fin 256

/-- Modelled from the spec: the two constants of `libretro.h` the bridge uses.
The header is not part of the sources; the spec calls them "the digital joypad
class" and "RGB 5-6-5".  They are kept abstract: every function that needs them
takes the header as an argument. -/
structure LibretroH where
  RETRO_DEVICE_JOYPAD : Nat
  RETRO_PIXEL_FORMAT_RGB565 : Nat

/-- The header as published with the libretro ABI, used for concrete runs. -/
def libretro_h : LibretroH :=
  { RETRO_DEVICE_JOYPAD := 1, RETRO_PIXEL_FORMAT_RGB565 := 2 }

/-- Source line 13: `#define RETRO_ENVIRONMENT_GET_PIXEL_FORMAT 10`. -/
def RETRO_ENVIRONMENT_GET_PIXEL_FORMAT : Nat := 10

/-- Modelled from the spec: `struct retro_game_info` of `libretro.h`, the
"game-descriptor referencing `path`".  `loadGame` zero-initialises it and then
stores the path. -/
structure retro_game_info where
  path : Option String
  data : Option (List Byte)
  size : Nat
  meta : Option String
  deriving DecidableEq, Repr

/-- The six callbacks the bridge hands to the core. -/
inductive Callback where
  | environment_cb
  | video_refresh_cb
  | audio_sample_cb
  | audio_sample_batch_cb
  | input_poll_cb
  | input_state_cb
  deriving DecidableEq, Repr

/-- A call from the bridge into an entry point of the core, as recorded in the
call log `Globals.trace`. -/
inductive CoreCall where
  | retro_init
  | retro_load_game (info : retro_game_info)
  | retro_run
  | retro_set_environment (cb : Callback)
  | retro_set_video_refresh (cb : Callback)
  | retro_set_audio_sample (cb : Callback)
  | retro_set_audio_sample_batch (cb : Callback)
  | retro_set_input_poll (cb : Callback)
  | retro_set_input_state (cb : Callback)
  deriving DecidableEq, Repr

/-- What the core does during one call of one of its entry points: it calls
back into the bridge any finite number of times, and returns `a`.

* `video_refresh data width height pitch`: `data` is the frame (`none` is the
  null pointer), the list being the memory block `data` points into;
* `audio_sample_batch data frames`: the continuation receives the `size_t` the
  callback returns;
* `input_state port device index id`: the continuation receives the `int16_t`
  the callback returns;
* `environment cmd data`: `data` is the cell the payload pointer points to
  (`none` is the null pointer); the continuation receives the result and the
  cell afterwards. -/
inductive CoreProg (α : Type) : Type where
  | ret (a : α)
  | video_refresh (data : Option (List Byte)) (width height pitch : Nat) (k : CoreProg α)
  | audio_sample (left right : Int) (k : CoreProg α)
  | audio_sample_batch (data : List Int) (frames : Nat) (k : Nat → CoreProg α)
  | input_poll (k : CoreProg α)
  | input_state (port device index id : Nat) (k : Int → CoreProg α)
  | environment (cmd : Nat) (data : Option Nat) (k : Bool → Option Nat → CoreProg α)

/-- A shared object as `dlopen` returns it: for each of the twelve symbols the
bridge looks up, what the symbol does if the module exports it.  `κ` is the
type of the private state of the core. -/
structure Module (κ : Type) where
  retro_init : Option (κ → CoreProg κ)
  retro_deinit : Option (κ → CoreProg κ)
  retro_load_game : Option (retro_game_info → κ → CoreProg (Bool × κ))
  retro_unload_game : Option (κ → CoreProg κ)
  retro_run : Option (κ → CoreProg κ)
  retro_set_environment : Option (Callback → κ → CoreProg κ)
  retro_set_video_refresh : Option (Callback → κ → CoreProg κ)
  retro_set_audio_sample : Option (Callback → κ → CoreProg κ)
  retro_set_audio_sample_batch : Option (Callback → κ → CoreProg κ)
  retro_set_input_poll : Option (Callback → κ → CoreProg κ)
  retro_set_input_state : Option (Callback → κ → CoreProg κ)
  retro_get_system_av_info : Option (κ → CoreProg κ)

/-- The global variables of `native-lib.cpp` (source lines 16 to 40), followed
by three fields for the world around them: the private state of the core, the
contents `malloc` hands out (indeterminate in C), and the log of the calls made
into the core. -/
structure Globals (κ : Type) where
  coreHandle : Option (Module κ)
  g_joypad_mask : Nat
  g_video_buffer : Option (List Byte)
  g_video_width : Nat
  g_video_height : Nat
  g_audio_buffer : List Int
  ptr_retro_init : Option (κ → CoreProg κ)
  ptr_retro_deinit : Option (κ → CoreProg κ)
  ptr_retro_load_game : Option (retro_game_info → κ → CoreProg (Bool × κ))
  ptr_retro_unload_game : Option (κ → CoreProg κ)
  ptr_retro_run : Option (κ → CoreProg κ)
  ptr_retro_set_environment : Option (Callback → κ → CoreProg κ)
  ptr_retro_set_video_refresh : Option (Callback → κ → CoreProg κ)
  ptr_retro_set_audio_sample : Option (Callback → κ → CoreProg κ)
  ptr_retro_set_audio_sample_batch : Option (Callback → κ → CoreProg κ)
  ptr_retro_set_input_poll : Option (Callback → κ → CoreProg κ)
  ptr_retro_set_input_state : Option (Callback → κ → CoreProg κ)
  ptr_retro_get_system_av_info : Option (κ → CoreProg κ)
  core : κ
  heap : Nat → Byte
  trace : List CoreCall

/-- The globals at process start: every pointer null, every counter zero, the
audio vector empty (the initialisers of source lines 16 to 40). -/
def Globals.start {κ : Type} (core : κ) (heap : Nat → Byte) : Globals κ :=
  { coreHandle := none
    g_joypad_mask := 0
    g_video_buffer := none
    g_video_width := 0
    g_video_height := 0
    g_audio_buffer := []
    ptr_retro_init := none
    ptr_retro_deinit := none
    ptr_retro_load_game := none
    ptr_retro_unload_game := none
    ptr_retro_run := none
    ptr_retro_set_environment := none
    ptr_retro_set_video_refresh := none
    ptr_retro_set_audio_sample := none
    ptr_retro_set_audio_sample_batch := none
    ptr_retro_set_input_poll := none
    ptr_retro_set_input_state := none
    ptr_retro_get_system_av_info := none
    core := core
    heap := heap
    trace := [] }

/-! ## Memory primitives -/

/-- A fresh block of `n` bytes from `malloc`: its contents are whatever the
heap holds. -/
def malloc (heap : Nat → Byte) (n : Nat) : List Byte :=
  (List.range n).map heap

/-- The call `memcpy(dst + dstOff, src + srcOff, n)` on two blocks: undefined
unless both ranges lie inside their blocks. -/
def memcpy (dst : List Byte) (dstOff : Nat) (src : List Byte) (srcOff n : Nat) :
    Option (List Byte) :=
  if srcOff + n ≤ src.length ∧ dstOff + n ≤ dst.length then
    some (dst.take dstOff ++ (src.drop srcOff).take n ++ dst.drop (dstOff + n))
  else none

/-! ## Callbacks (source lines 44 to 101) -/

/-- The `for` loop of `video_refresh_cb` (source lines 61 to 66) with `rows`
iterations left, `src` advanced by `srcOff` bytes and `dst` by `dstOff` bytes.
Each iteration copies `width * sizeof(uint16_t)` bytes (a `size_t` product),
then advances `src` by `pitch` bytes and `dst` by `width` 16-bit pixels. -/
def copyRows (src : List Byte) (width pitch : Nat) :
    Nat → Nat → Nat → List Byte → Option (List Byte)
  | 0, _, _, dst => some dst
  | rows + 1, srcOff, dstOff, dst =>
    match memcpy dst dstOff src srcOff (width * 2 % 2 ^ 64) with
    | none => none
    | some dst1 => copyRows src width pitch rows (srcOff + pitch) (dstOff + 2 * width) dst1

/-- The argument of `malloc` at source line 54,
`height * width * sizeof(uint16_t)`: the product `height * width` is formed in
`unsigned` (32 bits) and only then widened to `size_t` and doubled. -/
def video_buffer_size (width height : Nat) : Nat :=
  height * width % 2 ^ 32 * 2 % 2 ^ 64

/-- Source lines 44 to 67. -/
def video_refresh_cb {κ : Type} (g : Globals κ) (data : Option (List Byte))
    (width height pitch : Nat) : Option (Globals κ) :=
  match data with
  | none => some g
  | some src =>
    let g1 : Globals κ :=
      if width ≠ g.g_video_width ∨ height ≠ g.g_video_height then
        { g with
          g_video_width := width
          g_video_height := height
          g_video_buffer := some (malloc g.heap (video_buffer_size width height)) }
      else g
    match g1.g_video_buffer with
    | none => if height = 0 then some g1 else none
    | some dst =>
      match copyRows src width pitch height 0 0 dst with
      | none => none
      | some dst1 => some { g1 with g_video_buffer := some dst1 }

/-- Source lines 69 to 73. -/
def audio_sample_cb {κ : Type} (g : Globals κ) (left right : Int) : Globals κ :=
  { g with g_audio_buffer := (g.g_audio_buffer ++ [left]) ++ [right] }

/-- Source lines 75 to 79: appends the range `data .. data + frames * 2`
(`frames * 2` is a `size_t` product) and returns `frames`.  Undefined if the
range leaves the array `data`. -/
def audio_sample_batch_cb {κ : Type} (g : Globals κ) (data : List Int) (frames : Nat) :
    Option (Globals κ × Nat) :=
  if frames * 2 % 2 ^ 64 ≤ data.length then
    some ({ g with g_audio_buffer := g.g_audio_buffer ++ data.take (frames * 2 % 2 ^ 64) },
          frames)
  else none

/-- Source line 81. -/
def input_poll_cb {κ : Type} (g : Globals κ) : Globals κ := g

/-- Source lines 83 to 90.  `1 << id` shifts the `int` 1, which is undefined for
`id ≥ 32`; the mask is promoted to `int` for the `&`. -/
def input_state_cb {κ : Type} (hdr : LibretroH) (g : Globals κ)
    (port device _index id : Nat) : Option Int :=
  if port = 0 ∧ device = hdr.RETRO_DEVICE_JOYPAD then
    if id < 32 then
      if g.g_joypad_mask &&& (1 <<< id) ≠ 0 then some 1 else some 0
    else none
  else some 0

/-- Source lines 92 to 101.  `data` is the cell behind the payload pointer; the
store `*fmt = RETRO_PIXEL_FORMAT_RGB565` through a null pointer is undefined. -/
def environment_cb (hdr : LibretroH) (cmd : Nat) (data : Option Nat) :
    Option (Bool × Option Nat) :=
  if cmd = RETRO_ENVIRONMENT_GET_PIXEL_FORMAT then
    match data with
    | none => none
    | some _ => some (true, some hdr.RETRO_PIXEL_FORMAT_RGB565)
  else some (false, data)

/-- Runs what the core does during one call of an entry point against the
globals: every node of the tree is the corresponding callback above. -/
def exec {κ α : Type} (hdr : LibretroH) : CoreProg α → Globals κ → Option (α × Globals κ)
  | .ret a, g => some (a, g)
  | .video_refresh data width height pitch k, g =>
    match video_refresh_cb g data width height pitch with
    | none => none
    | some g1 => exec hdr k g1
  | .audio_sample left right k, g => exec hdr k (audio_sample_cb g left right)
  | .audio_sample_batch data frames k, g =>
    match audio_sample_batch_cb g data frames with
    | none => none
    | some (g1, r) => exec hdr (k r) g1
  | .input_poll k, g => exec hdr k (input_poll_cb g)
  | .input_state port device index id k, g =>
    match input_state_cb hdr g port device index id with
    | none => none
    | some r => exec hdr (k r) g
  | .environment cmd data k, g =>
    match environment_cb hdr cmd data with
    | none => none
    | some (r, data1) => exec hdr (k r data1) g

/-! ## JNI entry points (source lines 105 to 209) -/

/-- Calls the entry point `f` of the core (already applied to its arguments):
the call is logged, the callbacks it makes act on the globals, and the core
keeps the private state `f` ends in. -/
def callCore {κ : Type} (hdr : LibretroH) (g : Globals κ) (call : CoreCall)
    (f : κ → CoreProg κ) : Option (Globals κ) :=
  match exec hdr (f g.core) { g with trace := g.trace ++ [call] } with
  | none => none
  | some (c, g1) => some { g1 with core := c }

/-- The statement `if (ptr) ptr(cb);` of source lines 135 to 140. -/
def callSetter {κ : Type} (hdr : LibretroH) (g : Globals κ)
    (ptr : Option (Callback → κ → CoreProg κ)) (call : Callback → CoreCall) (cb : Callback) :
    Option (Globals κ) :=
  match ptr with
  | none => some g
  | some f => callCore hdr g (call cb) (f cb)

/-- Source lines 105 to 148.  `dlopen` is the file system as the dynamic linker
sees it: `none` when no module can be opened at the path. -/
def loadCore {κ : Type} (hdr : LibretroH) (dlopen : String → Option (Module κ))
    (g : Globals κ) (corePath : String) : Option (Globals κ × Bool) :=
  match dlopen corePath with
  | none => some ({ g with coreHandle := none }, false)
  | some m =>
    let g0 : Globals κ :=
      { g with
        coreHandle := some m
        ptr_retro_init := m.retro_init
        ptr_retro_deinit := m.retro_deinit
        ptr_retro_load_game := m.retro_load_game
        ptr_retro_unload_game := m.retro_unload_game
        ptr_retro_run := m.retro_run
        ptr_retro_set_environment := m.retro_set_environment
        ptr_retro_set_video_refresh := m.retro_set_video_refresh
        ptr_retro_set_audio_sample := m.retro_set_audio_sample
        ptr_retro_set_audio_sample_batch := m.retro_set_audio_sample_batch
        ptr_retro_set_input_poll := m.retro_set_input_poll
        ptr_retro_set_input_state := m.retro_set_input_state
        ptr_retro_get_system_av_info := m.retro_get_system_av_info }
    (callSetter hdr g0 g0.ptr_retro_set_environment
        CoreCall.retro_set_environment Callback.environment_cb).bind fun g1 =>
    (callSetter hdr g1 g1.ptr_retro_set_video_refresh
        CoreCall.retro_set_video_refresh Callback.video_refresh_cb).bind fun g2 =>
    (callSetter hdr g2 g2.ptr_retro_set_audio_sample
        CoreCall.retro_set_audio_sample Callback.audio_sample_cb).bind fun g3 =>
    (callSetter hdr g3 g3.ptr_retro_set_audio_sample_batch
        CoreCall.retro_set_audio_sample_batch Callback.audio_sample_batch_cb).bind fun g4 =>
    (callSetter hdr g4 g4.ptr_retro_set_input_poll
        CoreCall.retro_set_input_poll Callback.input_poll_cb).bind fun g5 =>
    (callSetter hdr g5 g5.ptr_retro_set_input_state
        CoreCall.retro_set_input_state Callback.input_state_cb).bind fun g6 =>
    (match g6.ptr_retro_init with
      | none => some g6
      | some f => callCore hdr g6 CoreCall.retro_init f).bind fun g7 =>
    some (g7, true)

/-- Source lines 150 to 165. -/
def loadGame {κ : Type} (hdr : LibretroH) (g : Globals κ) (gamePath : String) :
    Option (Globals κ × Bool) :=
  let game : retro_game_info := { path := some gamePath, data := none, size := 0, meta := none }
  match g.ptr_retro_load_game with
  | none => some (g, false)
  | some f =>
    match exec hdr (f game g.core) { g with trace := g.trace ++ [CoreCall.retro_load_game game] } with
    | none => none
    | some ((success, c), g1) => some ({ g1 with core := c }, success)

/-- Source lines 167 to 174.  `buttonId` is a `jint`; `1 << buttonId` shifts the
`int` 1 and is undefined outside `0 .. 31`.  The mask is promoted to `int`,
combined, and the result converted back to `uint16_t`, which keeps the low 16
bits.  The 32-bit patterns are computed on `Nat`: `~x` is `2 ^ 32 - 1 - x`. -/
def setInputState {κ : Type} (g : Globals κ) (buttonId : Int) (pressed : Bool) :
    Option (Globals κ) :=
  if 0 ≤ buttonId ∧ buttonId < 32 then
    if pressed then
      some { g with g_joypad_mask := (g.g_joypad_mask ||| (1 <<< buttonId.toNat)) % 2 ^ 16 }
    else
      some { g with
             g_joypad_mask :=
               (g.g_joypad_mask &&& (2 ^ 32 - 1 - (1 <<< buttonId.toNat))) % 2 ^ 16 }
  else none

/-- The Android bitmap handed to `runFrame`: whether `AndroidBitmap_lockPixels`
succeeds on it, and its pixel memory. -/
structure Bitmap where
  lockable : Bool
  pixels : List Byte
  deriving DecidableEq, Repr

/-- The conversion `(jint)samples` of a `size_t` to a 32-bit signed integer. -/
def jint (n : Nat) : Int :=
  if n % 2 ^ 32 < 2 ^ 31 then ((n % 2 ^ 32 : Nat) : Int) else ((n % 2 ^ 32 : Nat) : Int) - 2 ^ 32

/-- What `runFrame` leaves behind: the globals, the two sinks, and the `jint`
it returns. -/
structure FrameResult (κ : Type) where
  globals : Globals κ
  bitmap : Bitmap
  audioArray : List Int
  ret : Int

/-- The byte count of the `memcpy` at source line 191,
`g_video_width * g_video_height * 2`, a product formed in `unsigned`. -/
def bitmap_copy_size (width height : Nat) : Nat :=
  width * height % 2 ^ 32 * 2 % 2 ^ 32

/-- Step 2 of `runFrame` (source lines 185 to 194): if the frame buffer is
allocated and the bitmap can be locked, `memcpy` copies `bitmap_copy_size`
bytes of it into the pixels of the bitmap. -/
def drainVideo {κ : Type} (g : Globals κ) (bitmap : Bitmap) : Option Bitmap :=
  match g.g_video_buffer with
  | none => some bitmap
  | some buf =>
    if bitmap.lockable then
      match memcpy bitmap.pixels 0 buf 0 (bitmap_copy_size g.g_video_width g.g_video_height) with
      | none => none
      | some px => some { bitmap with pixels := px }
    else some bitmap

/-- Step 3 of `runFrame` (source lines 197 to 208) on the queue `q` and the
Java array: the queue afterwards, the array afterwards, and the result. -/
def drainAudio (q : List Int) (audioArray : List Int) : List Int × List Int × Int :=
  let samples := q.length
  if samples > 0 then
    let arrayLen := audioArray.length
    let samples := if samples > arrayLen then arrayLen else samples
    ([], q.take samples ++ audioArray.drop samples, jint samples)
  else (q, audioArray, 0)

/-- Source lines 176 to 209. -/
def runFrame {κ : Type} (hdr : LibretroH) (g : Globals κ) (bitmap : Bitmap)
    (audioArray : List Int) : Option (FrameResult κ) :=
  match g.ptr_retro_run with
  | none => some { globals := g, bitmap := bitmap, audioArray := audioArray, ret := 0 }
  | some run =>
    match callCore hdr g CoreCall.retro_run run with
    | none => none
    | some g1 =>
      match drainVideo g1 bitmap with
      | none => none
      | some bitmap1 =>
        let r := drainAudio g1.g_audio_buffer audioArray
        some { globals := { g1 with g_audio_buffer := r.1 }
               bitmap := bitmap1
               audioArray := r.2.1
               ret := r.2.2 }

/-! ## The frame a video callback delivers, and the frame buffer invariant -/

/-- The frame laid out row after row: the `2 * width` bytes found in `src` at
offsets `srcOff`, `srcOff + pitch`, `srcOff + 2 * pitch`, ... for `rows` rows,
without the padding between them. -/
def frameRows (src : List Byte) (width pitch : Nat) : Nat → Nat → List Byte
  | 0, _ => []
  | rows + 1, srcOff =>
    (src.drop srcOff).take (2 * width) ++ frameRows src width pitch rows (srcOff + pitch)

/-- The state of the frame buffer between calls: either nothing was ever
allocated and the recorded dimensions are still 0 x 0, or the block has the
size `malloc` was asked for at the recorded dimensions. -/
def FrameInv {κ : Type} (g : Globals κ) : Prop :=
  match g.g_video_buffer with
  | none => g.g_video_width = 0 ∧ g.g_video_height = 0
  | some buf => buf.length = video_buffer_size g.g_video_width g.g_video_height

/-! ## Harness: sequences of callbacks and of host calls -/

/-- The core calls `audio_sample_cb` once per stereo pair, in order. -/
def feedSamples {κ : Type} (g : Globals κ) (pairs : List (Int × Int)) : Globals κ :=
  pairs.foldl (fun acc p => audio_sample_cb acc p.1 p.2) g

/-- The array a core passes to `audio_sample_batch_cb` for the same pairs:
`L_1, R_1, ..., L_k, R_k`. -/
def interleave : List (Int × Int) → List Int
  | [] => []
  | p :: rest => p.1 :: p.2 :: interleave rest

/-- A call of the host into the bridge. -/
inductive HostCall where
  | loadCore (corePath : String)
  | loadGame (gamePath : String)
  | setInputState (buttonId : Int) (pressed : Bool)
  | runFrame (bitmap : Bitmap) (audioArray : List Int)

/-- One call of the host, on the globals. -/
def hostStep {κ : Type} (hdr : LibretroH) (dlopen : String → Option (Module κ))
    (g : Globals κ) : HostCall → Option (Globals κ)
  | .loadCore corePath => (loadCore hdr dlopen g corePath).map Prod.fst
  | .loadGame gamePath => (loadGame hdr g gamePath).map Prod.fst
  | .setInputState buttonId pressed => setInputState g buttonId pressed
  | .runFrame bitmap audioArray => (runFrame hdr g bitmap audioArray).map FrameResult.globals

/-- A sequence of calls of the host, in order. -/
def hostSteps {κ : Type} (hdr : LibretroH) (dlopen : String → Option (Module κ)) :
    Globals κ → List HostCall → Option (Globals κ)
  | g, [] => some g
  | g, c :: cs =>
    match hostStep hdr dlopen g c with
    | none => none
    | some g1 => hostSteps hdr dlopen g1 cs

/-- The globals with the frame buffer, its recorded dimensions and the audio
queue blanked: what is left is everything the callbacks never write. -/
def Globals.withoutMedia {κ : Type} (g : Globals κ) : Globals κ :=
  { g with
    g_video_buffer := none
    g_video_width := 0
    g_video_height := 0
    g_audio_buffer := [] }

/-- The twelve function pointers of the globals, read as a symbol table. -/
def Globals.bindings {κ : Type} (g : Globals κ) : Module κ :=
  { retro_init := g.ptr_retro_init
    retro_deinit := g.ptr_retro_deinit
    retro_load_game := g.ptr_retro_load_game
    retro_unload_game := g.ptr_retro_unload_game
    retro_run := g.ptr_retro_run
    retro_set_environment := g.ptr_retro_set_environment
    retro_set_video_refresh := g.ptr_retro_set_video_refresh
    retro_set_audio_sample := g.ptr_retro_set_audio_sample
    retro_set_audio_sample_batch := g.ptr_retro_set_audio_sample_batch
    retro_set_input_poll := g.ptr_retro_set_input_poll
    retro_set_input_state := g.ptr_retro_set_input_state
    retro_get_system_av_info := g.ptr_retro_get_system_av_info }

/-- The log entry of a call through a pointer: one entry if the pointer is
bound, none if it is null. -/
def presentCall {β : Type} (ptr : Option β) (call : CoreCall) : List CoreCall :=
  match ptr with
  | none => []
  | some _ => [call]

/-- The calls `loadCore` is to make into a module that opened: each setter the
module exports, with the callback of the bridge that belongs to it, in the
order of source lines 135 to 140, then `retro_init` if exported. -/
def setupCalls {κ : Type} (m : Module κ) : List CoreCall :=
  presentCall m.retro_set_environment (CoreCall.retro_set_environment Callback.environment_cb)
  ++ presentCall m.retro_set_video_refresh
      (CoreCall.retro_set_video_refresh Callback.video_refresh_cb)
  ++ presentCall m.retro_set_audio_sample
      (CoreCall.retro_set_audio_sample Callback.audio_sample_cb)
  ++ presentCall m.retro_set_audio_sample_batch
      (CoreCall.retro_set_audio_sample_batch Callback.audio_sample_batch_cb)
  ++ presentCall m.retro_set_input_poll (CoreCall.retro_set_input_poll Callback.input_poll_cb)
  ++ presentCall m.retro_set_input_state
      (CoreCall.retro_set_input_state Callback.input_state_cb)
  ++ presentCall m.retro_init CoreCall.retro_init

/-- The globals once `loadCore` has stored the handle and looked up the twelve
symbols of the module `m` (source lines 111 and 121 to 132). -/
def bindModule {κ : Type} (g : Globals κ) (m : Module κ) : Globals κ :=
  { g with
    coreHandle := some m
    ptr_retro_init := m.retro_init
    ptr_retro_deinit := m.retro_deinit
    ptr_retro_load_game := m.retro_load_game
    ptr_retro_unload_game := m.retro_unload_game
    ptr_retro_run := m.retro_run
    ptr_retro_set_environment := m.retro_set_environment
    ptr_retro_set_video_refresh := m.retro_set_video_refresh
    ptr_retro_set_audio_sample := m.retro_set_audio_sample
    ptr_retro_set_audio_sample_batch := m.retro_set_audio_sample_batch
    ptr_retro_set_input_poll := m.retro_set_input_poll
    ptr_retro_set_input_state := m.retro_set_input_state
    ptr_retro_get_system_av_info := m.retro_get_system_av_info }

/-- An entry point to be called, if the module exports it: the log entry of the
call and what the core does in it (`apply` supplies the arguments). -/
def presentEntry {κ β : Type} (ptr : Option β) (call : CoreCall)
    (apply : β → κ → CoreProg κ) : List (CoreCall × (κ → CoreProg κ)) :=
  match ptr with
  | none => []
  | some f => [(call, apply f)]

/-- What the spec asks of a load, in its words: "registers the callback-setter
entry points with CallbackBridge's implementations, each guarded individually:
an unavailable setter is skipped", then "invokes `init` exactly once if
present".  Each exported setter appears once, applied to the callback of the
bridge that belongs to it. -/
def setupEntries {κ : Type} (m : Module κ) : List (CoreCall × (κ → CoreProg κ)) :=
  presentEntry m.retro_set_environment
      (CoreCall.retro_set_environment Callback.environment_cb)
      (fun f => f Callback.environment_cb)
  ++ (presentEntry m.retro_set_video_refresh
      (CoreCall.retro_set_video_refresh Callback.video_refresh_cb)
      (fun f => f Callback.video_refresh_cb)
  ++ (presentEntry m.retro_set_audio_sample
      (CoreCall.retro_set_audio_sample Callback.audio_sample_cb)
      (fun f => f Callback.audio_sample_cb)
  ++ (presentEntry m.retro_set_audio_sample_batch
      (CoreCall.retro_set_audio_sample_batch Callback.audio_sample_batch_cb)
      (fun f => f Callback.audio_sample_batch_cb)
  ++ (presentEntry m.retro_set_input_poll
      (CoreCall.retro_set_input_poll Callback.input_poll_cb)
      (fun f => f Callback.input_poll_cb)
  ++ (presentEntry m.retro_set_input_state
      (CoreCall.retro_set_input_state Callback.input_state_cb)
      (fun f => f Callback.input_state_cb)
  ++ presentEntry m.retro_init CoreCall.retro_init (fun f => f))))))

/-- Invokes the listed entry points of the core one after the other: each is
run once, from the private state the core is in at that moment, its callbacks
acting on the globals; the call is logged and the core keeps the state the
entry point ends in. -/
def runEntries {κ : Type} (hdr : LibretroH) :
    Globals κ → List (CoreCall × (κ → CoreProg κ)) → Option (Globals κ)
  | g, [] => some g
  | g, entry :: rest =>
    match exec hdr (entry.2 g.core) { g with trace := g.trace ++ [entry.1] } with
    | none => none
    | some (c, g1) => runEntries hdr { g1 with core := c } rest

/-- Which of the twelve symbols a module exports. -/
structure Exports where
  retro_init : Bool
  retro_deinit : Bool
  retro_load_game : Bool
  retro_unload_game : Bool
  retro_run : Bool
  retro_set_environment : Bool
  retro_set_video_refresh : Bool
  retro_set_audio_sample : Bool
  retro_set_audio_sample_batch : Bool
  retro_set_input_poll : Bool
  retro_set_input_state : Bool
  retro_get_system_av_info : Bool
  deriving DecidableEq, Repr

/-- An exported symbol, or the null `dlsym` returns for a symbol that is not
exported. -/
def exported {β : Type} (present : Bool) (f : β) : Option β :=
  if present then some f else none

/-- A core that exports exactly the symbols of `e` and keeps, as its private
state, the list of the calls it has received: every setter notes the callback
it was handed, `retro_init`, `retro_run` and `retro_load_game` note that they
ran.  It never calls back. -/
def recordingModule (e : Exports) : Module (List CoreCall) :=
  { retro_init := exported e.retro_init (fun c => CoreProg.ret (c ++ [CoreCall.retro_init]))
    retro_deinit := exported e.retro_deinit (fun c => CoreProg.ret c)
    retro_load_game := exported e.retro_load_game
      (fun info c => CoreProg.ret (true, c ++ [CoreCall.retro_load_game info]))
    retro_unload_game := exported e.retro_unload_game (fun c => CoreProg.ret c)
    retro_run := exported e.retro_run (fun c => CoreProg.ret (c ++ [CoreCall.retro_run]))
    retro_set_environment := exported e.retro_set_environment
      (fun cb c => CoreProg.ret (c ++ [CoreCall.retro_set_environment cb]))
    retro_set_video_refresh := exported e.retro_set_video_refresh
      (fun cb c => CoreProg.ret (c ++ [CoreCall.retro_set_video_refresh cb]))
    retro_set_audio_sample := exported e.retro_set_audio_sample
      (fun cb c => CoreProg.ret (c ++ [CoreCall.retro_set_audio_sample cb]))
    retro_set_audio_sample_batch := exported e.retro_set_audio_sample_batch
      (fun cb c => CoreProg.ret (c ++ [CoreCall.retro_set_audio_sample_batch cb]))
    retro_set_input_poll := exported e.retro_set_input_poll
      (fun cb c => CoreProg.ret (c ++ [CoreCall.retro_set_input_poll cb]))
    retro_set_input_state := exported e.retro_set_input_state
      (fun cb c => CoreProg.ret (c ++ [CoreCall.retro_set_input_state cb]))
    retro_get_system_av_info := exported e.retro_get_system_av_info (fun c => CoreProg.ret c) }

/-- An operation on the audio queue: one of the two audio callbacks, or a
`runFrame` of the host. -/
inductive QueueOp where
  | audioSample (left right : Int)
  | audioSampleBatch (data : List Int) (frames : Nat)
  | runFrame (bitmap : Bitmap) (audioArray : List Int)

/-- One operation on the audio queue, on the globals. -/
def queueStep {κ : Type} (hdr : LibretroH) (g : Globals κ) : QueueOp → Option (Globals κ)
  | .audioSample left right => some (audio_sample_cb g left right)
  | .audioSampleBatch data frames => (audio_sample_batch_cb g data frames).map Prod.fst
  | .runFrame bitmap audioArray => (runFrame hdr g bitmap audioArray).map FrameResult.globals

/-- A sequence of operations on the audio queue, in order. -/
def queueSteps {κ : Type} (hdr : LibretroH) : Globals κ → List QueueOp → Option (Globals κ)
  | g, [] => some g
  | g, op :: ops =>
    match queueStep hdr g op with
    | none => none
    | some g1 => queueSteps hdr g1 ops

/-! ## Concrete states used by the evaluations below -/

/-- The globals at process start, with a core state of type `Unit` and a heap
of zero bytes. -/
def startGlobals : Globals Unit := Globals.start () (fun _ => 0)

/-- What a small core does in `retro_run`: it emits two stereo pairs through
`audio_sample_cb`. -/
def twoPairsRun : Unit → CoreProg Unit :=
  fun c => CoreProg.audio_sample 1 2 (CoreProg.audio_sample 3 4 (CoreProg.ret c))

/-- A state in which `ptr_retro_run` is bound to `twoPairsRun`. -/
def runBoundGlobals : Globals Unit :=
  { startGlobals with ptr_retro_run := some twoPairsRun }

/-- The state `runBoundGlobals` after the core's run has returned. -/
def runBoundAfterRun : Globals Unit :=
  { runBoundGlobals with
    g_audio_buffer := [1, 2, 3, 4]
    trace := [CoreCall.retro_run] }

/-- What a core does in `retro_run` when it delivers a frame of 2 x 2 pixels at a
pitch of 6 bytes (two bytes of padding after each row). -/
def smallFrameRun : Unit → CoreProg Unit :=
  fun c => CoreProg.video_refresh (some [1, 2, 3, 4, 90, 91, 5, 6, 7, 8]) 2 2 6 (CoreProg.ret c)

/-- Process start, with `ptr_retro_run` bound to `smallFrameRun`. -/
def smallFrameGlobals : Globals Unit :=
  { startGlobals with ptr_retro_run := some smallFrameRun }

/-- The state `smallFrameGlobals` after the core's run has returned. -/
def smallFrameAfterRun : Globals Unit :=
  { smallFrameGlobals with
    g_video_width := 2
    g_video_height := 2
    g_video_buffer := some [1, 2, 3, 4, 5, 6, 7, 8]
    trace := [CoreCall.retro_run] }

/-- The exports of a partial core: everything but `retro_run` and
`retro_load_game`. -/
def partialExports : Exports :=
  { retro_init := true
    retro_deinit := true
    retro_load_game := false
    retro_unload_game := true
    retro_run := false
    retro_set_environment := true
    retro_set_video_refresh := true
    retro_set_audio_sample := true
    retro_set_audio_sample_batch := true
    retro_set_input_poll := true
    retro_set_input_state := true
    retro_get_system_av_info := true }

/-- A state in which `ptr_retro_load_game` is bound to an entry point that
refuses every game. -/
def refusingGlobals : Globals Unit :=
  { startGlobals with ptr_retro_load_game := some (fun _ c => CoreProg.ret (false, c)) }

/-- A module without `retro_run`: it exports `retro_set_audio_sample` and a
`retro_init` that emits one stereo pair through the callback it was given. -/
def noRunModule : Module Unit :=
  { retro_init := some (fun c => CoreProg.audio_sample 7 8 (CoreProg.ret c))
    retro_deinit := none
    retro_load_game := none
    retro_unload_game := none
    retro_run := none
    retro_set_environment := none
    retro_set_video_refresh := none
    retro_set_audio_sample := some (fun _ c => CoreProg.ret c)
    retro_set_audio_sample_batch := none
    retro_set_input_poll := none
    retro_set_input_state := none
    retro_get_system_av_info := none }

end EmuLauncher

/-! # Theorems -/

namespace EmuLauncher

/-! ## C1 and C5: the frame buffer -/

/-- `memcpy` keeps the size of the destination block. -/
theorem memcpy_length (dst src : List Byte) (dstOff srcOff n : Nat) (dst1 : List Byte)
    (h : memcpy dst dstOff src srcOff n = some dst1) : dst1.length = dst.length := by
  unfold memcpy at h
  split at h
  · rename_i hc
    simp only [Option.some.injEq] at h
    rw [← h]
    simp only [List.length_append, List.length_take, List.length_drop]
    omega
  · simp at h

/-- The row loop keeps the size of the destination block. -/
theorem copyRows_length (src : List Byte) (width pitch rows : Nat) :
    ∀ (srcOff dstOff : Nat) (dst dst1 : List Byte),
      copyRows src width pitch rows srcOff dstOff dst = some dst1 → dst1.length = dst.length := by
  induction rows with
  | zero =>
    intro srcOff dstOff dst dst1 h
    simp only [copyRows, Option.some.injEq] at h
    rw [h]
  | succ rows ih =>
    intro srcOff dstOff dst dst1 h
    rw [copyRows] at h
    cases hm : memcpy dst dstOff src srcOff (width * 2 % 2 ^ 64) with
    | none => rw [hm] at h; exact absurd h (by simp)
    | some dst2 =>
      rw [hm] at h
      rw [ih _ _ _ _ h, memcpy_length _ _ _ _ _ _ hm]

/-- A frame whose rows all lie inside the source has `rows * (2 * width)` bytes. -/
theorem frameRows_length (src : List Byte) (width pitch rows : Nat) :
    ∀ srcOff, (∀ y, y < rows → srcOff + y * pitch + 2 * width ≤ src.length) →
      (frameRows src width pitch rows srcOff).length = rows * (2 * width) := by
  induction rows with
  | zero => intro srcOff _; simp [frameRows]
  | succ rows ih =>
    intro srcOff h
    have h0 := h 0 (by omega)
    have hrest : ∀ y, y < rows → srcOff + pitch + y * pitch + 2 * width ≤ src.length := by
      intro y hy
      have := h (y + 1) (by omega)
      rw [Nat.succ_mul y pitch] at this
      omega
    simp only [frameRows, List.length_append, List.length_take, List.length_drop, ih _ hrest,
      Nat.succ_mul rows (2 * width)]
    omega

theorem drop_splice {α : Type} (A dst : List α) (k m : Nat) (h : A.length = k) :
    (A ++ dst.drop k).drop (k + m) = dst.drop (k + m) := by
  subst h
  rw [List.drop_append, List.drop_drop]

/-- The row loop in closed form: where every source row lies inside `src` and
the destination has room, the loop writes the rows of the frame at `dstOff` and
leaves the rest of the destination as it was. -/
theorem copyRows_eq (src : List Byte) (width pitch rows : Nat) (hw : width < 2 ^ 63) :
    ∀ (srcOff dstOff : Nat) (dst : List Byte),
      (∀ y, y < rows → srcOff + y * pitch + 2 * width ≤ src.length) →
      dstOff + rows * (2 * width) ≤ dst.length →
      copyRows src width pitch rows srcOff dstOff dst
        = some (dst.take dstOff ++ frameRows src width pitch rows srcOff
            ++ dst.drop (dstOff + rows * (2 * width))) := by
  have hmod : width * 2 % 2 ^ 64 = 2 * width := by
    rw [Nat.mod_eq_of_lt (by omega)]; omega
  induction rows with
  | zero =>
    intro srcOff dstOff dst _ _
    simp [copyRows, frameRows]
  | succ rows ih =>
    intro srcOff dstOff dst hsrc hdst
    have h0 := hsrc 0 (by omega)
    have hrest : ∀ y, y < rows → srcOff + pitch + y * pitch + 2 * width ≤ src.length := by
      intro y hy
      have := hsrc (y + 1) (by omega)
      rw [Nat.succ_mul y pitch] at this
      omega
    rw [Nat.succ_mul rows (2 * width)] at hdst
    have hcopy : memcpy dst dstOff src srcOff (2 * width)
        = some (dst.take dstOff ++ (src.drop srcOff).take (2 * width)
            ++ dst.drop (dstOff + 2 * width)) := by
      unfold memcpy
      rw [if_pos ⟨by omega, by omega⟩]
    have hA : (dst.take dstOff ++ (src.drop srcOff).take (2 * width)).length
        = dstOff + 2 * width := by
      simp only [List.length_append, List.length_take, List.length_drop]
      omega
    rw [copyRows, hmod, hcopy]
    show copyRows src width pitch rows (srcOff + pitch) (dstOff + 2 * width) _ = _
    rw [ih (srcOff + pitch) (dstOff + 2 * width) _ hrest
      (by simp only [List.length_append, List.length_take, List.length_drop]; omega)]
    rw [List.take_left' hA, drop_splice _ _ _ _ hA]
    have hoff : dstOff + 2 * width + rows * (2 * width) = dstOff + (rows + 1) * (2 * width) := by
      rw [Nat.succ_mul rows (2 * width)]; omega
    rw [hoff]
    simp only [frameRows, List.append_assoc]

/-- Row `y` of the frame is the `2 * width` bytes of the source at `y * pitch`. -/
theorem frameRows_row (src : List Byte) (width pitch rows : Nat) :
    ∀ srcOff y, y < rows →
      (∀ i, i < rows → srcOff + i * pitch + 2 * width ≤ src.length) →
      ((frameRows src width pitch rows srcOff).drop (y * (2 * width))).take (2 * width)
        = (src.drop (srcOff + y * pitch)).take (2 * width) := by
  induction rows with
  | zero => intro srcOff y hy; omega
  | succ rows ih =>
    intro srcOff y hy hsrc
    have h0 := hsrc 0 (by omega)
    have hrest : ∀ i, i < rows → srcOff + pitch + i * pitch + 2 * width ≤ src.length := by
      intro i hi
      have := hsrc (i + 1) (by omega)
      rw [Nat.succ_mul i pitch] at this
      omega
    have hA : ((src.drop srcOff).take (2 * width)).length = 2 * width := by
      simp only [List.length_take, List.length_drop]
      omega
    rw [frameRows]
    cases y with
    | zero =>
      rw [Nat.zero_mul, List.drop_zero, List.take_left' hA, Nat.zero_mul, Nat.add_zero]
    | succ y =>
      have e1 : (y + 1) * (2 * width) = 2 * width + y * (2 * width) := by
        rw [Nat.succ_mul y (2 * width)]; omega
      have e2 : srcOff + (y + 1) * pitch = srcOff + pitch + y * pitch := by
        rw [Nat.succ_mul y pitch]; omega
      rw [e1, e2]
      conv => lhs; arg 2; arg 1; arg 1; rw [← hA]
      rw [List.drop_append, ih (srcOff + pitch) y (by omega) hrest]

/-- Without the 32-bit wrap the size passed to `malloc` is that of the frame. -/
theorem video_buffer_size_eq (width height : Nat) (h : width * height < 2 ^ 32) :
    video_buffer_size width height = height * (2 * width) := by
  unfold video_buffer_size
  have hc : height * width = width * height := Nat.mul_comm _ _
  rw [hc, Nat.mod_eq_of_lt h, Nat.mod_eq_of_lt (by omega), ← hc, Nat.mul_assoc,
    Nat.mul_comm width 2]

theorem malloc_length (heap : Nat → Byte) (n : Nat) : (malloc heap n).length = n := by
  simp [malloc]

/-- The stride copy of `video_refresh_cb`, wherever `width * height` fits 32
bits: from a state satisfying the invariant, a frame of at least one row whose
source holds `(height - 1) * pitch + 2 * width` bytes leaves the recorded
dimensions at `width` x `height` and the buffer equal to the rows of the frame;
the buffer then has `width * height * 2` bytes and its row `y` is the
`2 * width` source bytes at offset `y * pitch`. -/
theorem video_refresh_cb_rows {κ : Type} (g : Globals κ) (src : List Byte)
    (width height pitch : Nat) (hinv : FrameInv g) (hpos : 0 < height)
    (hfit : width * height < 2 ^ 32)
    (hsrc : (height - 1) * pitch + 2 * width ≤ src.length) :
    video_refresh_cb g (some src) width height pitch
      = some { g with
               g_video_width := width
               g_video_height := height
               g_video_buffer := some (frameRows src width pitch height 0) } ∧
    (frameRows src width pitch height 0).length = width * height * 2 ∧
    ∀ y, y < height →
      ((frameRows src width pitch height 0).drop (y * (2 * width))).take (2 * width)
        = (src.drop (y * pitch)).take (2 * width) := by
  have hrows : ∀ y, y < height → 0 + y * pitch + 2 * width ≤ src.length := by
    intro y hy
    have : y * pitch ≤ (height - 1) * pitch := Nat.mul_le_mul_right _ (by omega)
    omega
  have hw : width < 2 ^ 63 := by
    have : width * 1 ≤ width * height := Nat.mul_le_mul_left _ hpos
    omega
  have hsize := video_buffer_size_eq width height hfit
  have hlen := frameRows_length src width pitch height 0 hrows
  have hfill : ∀ dst : List Byte, dst.length = height * (2 * width) →
      copyRows src width pitch height 0 0 dst = some (frameRows src width pitch height 0) := by
    intro dst hd
    rw [copyRows_eq src width pitch height hw 0 0 dst hrows (by omega), List.take_zero,
      List.nil_append, Nat.zero_add, List.drop_of_length_le (by omega), List.append_nil]
  refine ⟨?_, ?_, ?_⟩
  · unfold video_refresh_cb
    by_cases hne : width ≠ g.g_video_width ∨ height ≠ g.g_video_height
    · simp only [if_pos hne]
      rw [hfill _ (by rw [malloc_length, hsize])]
    · have hw0 : width = g.g_video_width := by
        by_contra hc; exact hne (Or.inl hc)
      have hh0 : height = g.g_video_height := by
        by_contra hc; exact hne (Or.inr hc)
      subst hw0 hh0
      simp only [if_neg hne]
      unfold FrameInv at hinv
      cases hb : g.g_video_buffer with
      | none =>
        rw [hb] at hinv
        omega
      | some buf =>
        rw [hb] at hinv
        simp only [hfill buf (by rw [hinv, hsize])]
  · rw [hlen, Nat.mul_comm width height, Nat.mul_assoc, Nat.mul_comm width 2]
  · intro y hy
    have := frameRows_row src width pitch height 0 y hy hrows
    rw [Nat.zero_add] at this
    exact this

/-- The frame buffer invariant holds at process start and after every video
callback that returns. -/
theorem video_refresh_cb_inv {κ : Type} (g g1 : Globals κ) (data : Option (List Byte))
    (width height pitch : Nat) (hinv : FrameInv g)
    (h : video_refresh_cb g data width height pitch = some g1) : FrameInv g1 := by
  unfold video_refresh_cb at h
  cases data with
  | none =>
    simp only [Option.some.injEq] at h
    rw [← h]; exact hinv
  | some src =>
    simp only at h
    by_cases hne : width ≠ g.g_video_width ∨ height ≠ g.g_video_height
    · simp only [if_pos hne] at h
      cases hc : copyRows src width pitch height 0 0
          (malloc g.heap (video_buffer_size width height)) with
      | none => rw [hc] at h; exact absurd h (by simp)
      | some dst1 =>
        rw [hc] at h
        simp only [Option.some.injEq] at h
        rw [← h]
        unfold FrameInv
        simp only
        rw [copyRows_length _ _ _ _ _ _ _ _ hc, malloc_length]
    · simp only [if_neg hne] at h
      unfold FrameInv at hinv
      cases hb : g.g_video_buffer with
      | none =>
        rw [hb] at h hinv
        simp only at h
        split at h
        · simp only [Option.some.injEq] at h
          rw [← h]; unfold FrameInv; rw [hb]; exact hinv
        · exact absurd h (by simp)
      | some buf =>
        rw [hb] at h hinv
        simp only at h
        cases hc : copyRows src width pitch height 0 0 buf with
        | none => rw [hc] at h; exact absurd h (by simp)
        | some dst1 =>
          rw [hc] at h
          simp only [Option.some.injEq] at h
          rw [← h]
          unfold FrameInv
          simp only
          rw [copyRows_length _ _ _ _ _ _ _ _ hc]
          exact hinv

/-- The stride copy on the frame of the spec's scenario: 256 x 240 pixels at a
pitch of 600 bytes, from process start. -/
theorem video_refresh_cb_rows_256_240_600 :
    FrameInv startGlobals ∧ 0 < 240 ∧ 256 * 240 < 2 ^ 32 ∧
    (240 - 1) * 600 + 2 * 256 ≤ (List.replicate 143912 (7 : Byte)).length ∧
    video_refresh_cb startGlobals (some (List.replicate 143912 (7 : Byte))) 256 240 600
      = some { startGlobals with
               g_video_width := 256
               g_video_height := 240
               g_video_buffer :=
                 some (frameRows (List.replicate 143912 (7 : Byte)) 256 600 240 0) } ∧
    (frameRows (List.replicate 143912 (7 : Byte)) 256 600 240 0).length = 256 * 240 * 2 :=
  have hinv : FrameInv startGlobals := ⟨rfl, rfl⟩
  have hlen : (240 - 1) * 600 + 2 * 256 ≤ (List.replicate 143912 (7 : Byte)).length := by
    rw [List.length_replicate]
  have hmain := video_refresh_cb_rows startGlobals (List.replicate 143912 (7 : Byte))
    256 240 600 hinv (by decide) (by decide) hlen
  ⟨hinv, by decide, by decide, hlen, hmain.1, hmain.2.1⟩

/-- At 65536 x 65536 the first row copy of `video_refresh_cb` already leaves a
buffer of no bytes, whatever the source and the pitch. -/
theorem copyRows_empty_dst (src : List Byte) (pitch rows : Nat) :
    copyRows src 65536 pitch (rows + 1) 0 0 [] = none := by
  simp [copyRows, memcpy]

/-- From process start, a 65536 x 65536 frame makes `video_refresh_cb` allocate
`malloc(0)` and then write past it. -/
theorem video_refresh_cb_65536 (src : List Byte) (pitch : Nat) :
    video_refresh_cb startGlobals (some src) 65536 65536 pitch = none := by
  have hsize : video_buffer_size 65536 65536 = 0 := by decide
  have hne : (65536 : Nat) ≠ startGlobals.g_video_width ∨
      (65536 : Nat) ≠ startGlobals.g_video_height := Or.inl (by decide)
  have hrows := copyRows_empty_dst src pitch 65535
  simp only [video_refresh_cb, if_pos hne, hsize, malloc, List.range_zero, List.map_nil]
  rw [show (65536 : Nat) = 65535 + 1 from rfl, hrows]

/-- C1 at its failing input: width 65536, height 65536, pitch 131072 = 2 * width
and a source of 2^33 bytes, which is the size the claim asks for.  The call
does not fill the frame buffer: it is undefined (a heap overflow). -/
theorem C1_failing_input_65536 :
    2 * 65536 ≤ 131072 ∧
    (65536 - 1) * 131072 + 2 * 65536 ≤ (List.replicate (2 ^ 33) (0 : Byte)).length ∧
    video_refresh_cb startGlobals (some (List.replicate (2 ^ 33) (0 : Byte))) 65536 65536 131072
      = none :=
  ⟨by decide, by rw [List.length_replicate]; decide, video_refresh_cb_65536 _ _⟩

/-- C5 at its failing input: for the positive dimensions 65536 x 65536 the size
passed to `malloc` is 0, not 65536 * 65536 * 2, and no source and pitch make
the call end in a valid frame buffer. -/
theorem C5_failing_input_65536 :
    video_buffer_size 65536 65536 = 0 ∧
    65536 * 65536 * 2 = 2 ^ 33 ∧
    ∀ (src : List Byte) (pitch : Nat),
      video_refresh_cb startGlobals (some src) 65536 65536 pitch = none :=
  ⟨by decide, by decide, video_refresh_cb_65536⟩

/-! ## C2 and C3: the audio drain of `runFrame` -/

theorem jint_of_lt (n : Nat) (h : n < 2 ^ 31) : jint n = (n : Int) := by
  have hm : n % 2 ^ 32 = n := Nat.mod_eq_of_lt (by omega)
  unfold jint
  rw [hm, if_pos h]

/-- The audio step in closed form, for a Java array (fewer than 2^31 entries). -/
theorem drainAudio_eq (q audioArray : List Int) (hcap : audioArray.length < 2 ^ 31) :
    drainAudio q audioArray
      = ([], q.take (min q.length audioArray.length)
              ++ audioArray.drop (min q.length audioArray.length),
          ((min q.length audioArray.length : Nat) : Int)) := by
  unfold drainAudio
  by_cases hq : q.length > 0
  · simp only [if_pos hq]
    by_cases hc : q.length > audioArray.length
    · have hmin : min q.length audioArray.length = audioArray.length := by omega
      rw [if_pos hc, hmin, jint_of_lt _ hcap]
    · have hmin : min q.length audioArray.length = q.length := by omega
      rw [if_neg hc, hmin, jint_of_lt _ (by omega)]
  · have hnil : q = [] := List.length_eq_zero.mp (by omega)
    subst hnil
    simp

/-- The queue is empty after the audio step, whatever the array. -/
theorem drainAudio_queue (q audioArray : List Int) : (drainAudio q audioArray).1 = [] := by
  unfold drainAudio
  by_cases hq : q.length > 0
  · simp only [if_pos hq]
  · have hnil : q = [] := List.length_eq_zero.mp (by omega)
    subst hnil
    simp

/-- The result of `runFrame` once the core's run and the video copy are known. -/
theorem runFrame_eq {κ : Type} (hdr : LibretroH) (g g1 : Globals κ) (run : κ → CoreProg κ)
    (bitmap bitmap1 : Bitmap) (audioArray : List Int)
    (hrun : g.ptr_retro_run = some run)
    (hcore : callCore hdr g CoreCall.retro_run run = some g1)
    (hvideo : drainVideo g1 bitmap = some bitmap1) :
    runFrame hdr g bitmap audioArray
      = some { globals :=
                { g1 with g_audio_buffer := (drainAudio g1.g_audio_buffer audioArray).1 }
               bitmap := bitmap1
               audioArray := (drainAudio g1.g_audio_buffer audioArray).2.1
               ret := (drainAudio g1.g_audio_buffer audioArray).2.2 } := by
  simp only [runFrame, hrun, hcore, hvideo]

/-- C2: let `run` be bound, let the core's run return leaving the queue `q`
(the queue of `g1`), and let the video copy be defined.  Then for every Java
array of capacity C, `runFrame` returns n = min(length q, C), the first n
entries of the array are the first n samples of `q` in order and the entries
from n on are untouched; when length q > C the array holds exactly the first C
samples of `q` and the result is C. -/
theorem C2_runFrame_audio {κ : Type} (hdr : LibretroH) (g g1 : Globals κ)
    (run : κ → CoreProg κ) (bitmap bitmap1 : Bitmap) (audioArray : List Int)
    (hrun : g.ptr_retro_run = some run)
    (hcore : callCore hdr g CoreCall.retro_run run = some g1)
    (hvideo : drainVideo g1 bitmap = some bitmap1)
    (hcap : audioArray.length < 2 ^ 31) :
    ∃ r, runFrame hdr g bitmap audioArray = some r ∧
      r.ret = ((min g1.g_audio_buffer.length audioArray.length : Nat) : Int) ∧
      r.audioArray.take (min g1.g_audio_buffer.length audioArray.length)
        = g1.g_audio_buffer.take (min g1.g_audio_buffer.length audioArray.length) ∧
      r.audioArray.drop (min g1.g_audio_buffer.length audioArray.length)
        = audioArray.drop (min g1.g_audio_buffer.length audioArray.length) ∧
      (audioArray.length < g1.g_audio_buffer.length →
        r.ret = (audioArray.length : Int) ∧
        r.audioArray = g1.g_audio_buffer.take audioArray.length) := by
  refine ⟨_, runFrame_eq hdr g g1 run bitmap bitmap1 audioArray hrun hcore hvideo, ?_⟩
  have e := drainAudio_eq g1.g_audio_buffer audioArray hcap
  have hlen : (g1.g_audio_buffer.take (min g1.g_audio_buffer.length audioArray.length)).length
      = min g1.g_audio_buffer.length audioArray.length := by
    rw [List.length_take]; omega
  refine ⟨by rw [e], ?_, ?_, ?_⟩
  · show List.take _ (drainAudio g1.g_audio_buffer audioArray).2.1 = _
    rw [e]
    show List.take _ (_ ++ _) = _
    rw [List.take_append_of_le_length (by omega), List.take_of_length_le (by omega)]
  · show List.drop _ (drainAudio g1.g_audio_buffer audioArray).2.1 = _
    rw [e]
    show List.drop _ (_ ++ _) = _
    rw [List.drop_append_of_le_length (by omega), List.drop_of_length_le (by omega),
      List.nil_append]
  · intro hlt
    have hmin : min g1.g_audio_buffer.length audioArray.length = audioArray.length := by omega
    rw [hmin, List.drop_length, List.append_nil] at e
    constructor
    · show (drainAudio g1.g_audio_buffer audioArray).2.2 = _
      rw [e]
    · show (drainAudio g1.g_audio_buffer audioArray).2.1 = _
      rw [e]

/-- C2 on `runBoundGlobals`: four samples are queued by the run, the array
holds three. -/
theorem C2_runFrame_audio_witness :
    runBoundGlobals.ptr_retro_run = some twoPairsRun ∧
    callCore libretro_h runBoundGlobals CoreCall.retro_run twoPairsRun = some runBoundAfterRun ∧
    drainVideo runBoundAfterRun { lockable := true, pixels := [] }
      = some { lockable := true, pixels := [] } ∧
    ([0, 0, 0] : List Int).length < 2 ^ 31 ∧
    ∃ r, runFrame libretro_h runBoundGlobals { lockable := true, pixels := [] } [0, 0, 0] = some r ∧
      r.ret = 3 ∧ r.audioArray = [1, 2, 3] :=
  ⟨rfl, rfl, rfl, by decide, by
    obtain ⟨r, hr, _, _, _, htr⟩ :=
      C2_runFrame_audio libretro_h runBoundGlobals runBoundAfterRun twoPairsRun
        { lockable := true, pixels := [] } { lockable := true, pixels := [] } [0, 0, 0]
        rfl rfl rfl (by decide)
    exact ⟨r, hr, (htr (by decide)).1, (htr (by decide)).2⟩⟩

/-- C3, as stated, fails when `ptr_retro_run` is null and samples are queued:
`runFrame` returns 0 at its first line and the queue still holds them.  Such a
state is also reached from process start by loading `noRunModule`, whose
`retro_init` queues a pair. -/
theorem C3_counterexample_unbound :
    (runFrame libretro_h { startGlobals with g_audio_buffer := [7, 8] }
        { lockable := true, pixels := [] } [0, 0, 0, 0]).map
      (fun r => (r.ret, r.globals.g_audio_buffer, r.audioArray))
      = some (0, [7, 8], [0, 0, 0, 0]) ∧
    (loadCore libretro_h (fun _ => some noRunModule) startGlobals "core.so").bind
      (fun p => (runFrame libretro_h p.1 { lockable := true, pixels := [] } [0, 0, 0, 0]).map
        (fun r => (p.2, r.ret, r.globals.g_audio_buffer, r.audioArray)))
      = some (true, 0, [7, 8], [0, 0, 0, 0]) := by
  decide

/-- C3, amended: after any `runFrame` call made while the run entry point is
bound, the audio queue is empty, whether or not samples were cut off; the call
returns whenever the core's run and the video copy are defined.  (With run
unbound the queue is left as it was.) -/
theorem C3_runFrame_queue_empty {κ : Type} (hdr : LibretroH) (g : Globals κ)
    (run : κ → CoreProg κ) (bitmap : Bitmap) (audioArray : List Int)
    (hrun : g.ptr_retro_run = some run) :
    (∀ r, runFrame hdr g bitmap audioArray = some r → r.globals.g_audio_buffer = []) ∧
    (∀ g1 bitmap1, callCore hdr g CoreCall.retro_run run = some g1 →
      drainVideo g1 bitmap = some bitmap1 →
      ∃ r, runFrame hdr g bitmap audioArray = some r ∧ r.globals.g_audio_buffer = []) := by
  constructor
  · intro r hr
    simp only [runFrame, hrun] at hr
    cases hc : callCore hdr g CoreCall.retro_run run with
    | none => simp [hc] at hr
    | some g1 =>
      cases hv : drainVideo g1 bitmap with
      | none => simp [hc, hv] at hr
      | some bitmap1 =>
        simp only [hc, hv, Option.some.injEq] at hr
        rw [← hr]
        exact drainAudio_queue _ _
  · intro g1 bitmap1 hc hv
    exact ⟨_, runFrame_eq hdr g g1 run bitmap bitmap1 audioArray hrun hc hv,
      drainAudio_queue _ _⟩

/-- C3, amended, on `runBoundGlobals` with an array too small for the four
samples of the run. -/
theorem C3_runFrame_queue_empty_witness :
    runBoundGlobals.ptr_retro_run = some twoPairsRun ∧
    ∃ r, runFrame libretro_h runBoundGlobals { lockable := true, pixels := [] } [0, 0, 0] = some r ∧
      r.globals.g_audio_buffer = [] :=
  ⟨rfl,
   (C3_runFrame_queue_empty libretro_h runBoundGlobals twoPairsRun
      { lockable := true, pixels := [] } [0, 0, 0] rfl).2
      runBoundAfterRun { lockable := true, pixels := [] } rfl rfl⟩

/-! ## Bits of the joypad mask -/

theorem and_one_shiftLeft_ne_zero (m i : Nat) : m &&& (1 <<< i) ≠ 0 ↔ m.testBit i = true := by
  rw [Nat.one_shiftLeft, Nat.and_two_pow]
  cases h : m.testBit i <;> simp

theorem testBit_set (m i j : Nat) :
    ((m ||| (1 <<< i)) % 2 ^ 16).testBit j = (decide (j < 16) && (m.testBit j || decide (i = j))) := by
  rw [Nat.testBit_mod_two_pow, Nat.testBit_or, Nat.one_shiftLeft, Nat.testBit_two_pow]

theorem testBit_clear (m i j : Nat) (h : i < 32) :
    ((m &&& (2 ^ 32 - 1 - (1 <<< i))) % 2 ^ 16).testBit j
      = (decide (j < 16) && (m.testBit j && !decide (i = j))) := by
  have hlt : 2 ^ i < 2 ^ 32 := Nat.pow_lt_pow_right (by decide) h
  have e : 2 ^ 32 - 1 - 2 ^ i = 2 ^ 32 - (2 ^ i + 1) := by omega
  rw [Nat.one_shiftLeft, e, Nat.testBit_mod_two_pow, Nat.testBit_and,
    Nat.testBit_two_pow_sub_succ hlt, Nat.testBit_two_pow]
  by_cases h16 : j < 16
  · have h32 : j < 32 := by omega
    simp [h16, h32]
  · simp [h16]

/-- What `input_state_cb` returns wherever the shift is defined. -/
theorem input_state_cb_eq {κ : Type} (hdr : LibretroH) (g : Globals κ)
    (port device index id : Nat) (h : id < 32 ∨ port ≠ 0 ∨ device ≠ hdr.RETRO_DEVICE_JOYPAD) :
    input_state_cb hdr g port device index id
      = some (if port = 0 ∧ device = hdr.RETRO_DEVICE_JOYPAD ∧ g.g_joypad_mask.testBit id = true
          then 1 else 0) := by
  unfold input_state_cb
  by_cases hp : port = 0 ∧ device = hdr.RETRO_DEVICE_JOYPAD
  · have hid : id < 32 := by
      rcases h with h | h | h
      · exact h
      · exact absurd hp.1 h
      · exact absurd hp.2 h
    rw [if_pos hp, if_pos hid]
    by_cases hb : g.g_joypad_mask.testBit id = true
    · rw [if_pos ((and_one_shiftLeft_ne_zero _ _).2 hb), if_pos ⟨hp.1, hp.2, hb⟩]
    · rw [if_neg (fun hne => hb ((and_one_shiftLeft_ne_zero _ _).1 hne)),
        if_neg (fun hc => hb hc.2.2)]
  · rw [if_neg hp, if_neg (fun hc => hp ⟨hc.1, hc.2.1⟩)]

/-- The globals after `setInputState(id, true)` for a shift that is defined. -/
theorem setInputState_pressed {κ : Type} (g : Globals κ) (id : Nat) (h : id < 32) :
    setInputState g (id : Int) true
      = some { g with g_joypad_mask := (g.g_joypad_mask ||| (1 <<< id)) % 2 ^ 16 } := by
  have hr : (0 : Int) ≤ (id : Int) ∧ (id : Int) < 32 := by omega
  unfold setInputState
  rw [if_pos hr, if_pos rfl, Int.toNat_ofNat]

/-- The globals after `setInputState(id, false)` for a shift that is defined. -/
theorem setInputState_released {κ : Type} (g : Globals κ) (id : Nat) (h : id < 32) :
    setInputState g (id : Int) false
      = some { g with
               g_joypad_mask := (g.g_joypad_mask &&& (2 ^ 32 - 1 - (1 <<< id))) % 2 ^ 16 } := by
  have hr : (0 : Int) ≤ (id : Int) ∧ (id : Int) < 32 := by omega
  unfold setInputState
  rw [if_pos hr, if_neg (by decide), Int.toNat_ofNat]

/-! ## C4: a button reads back as it was set -/

/-- C4, as stated, fails at button id 16: `setInputState(16, true)` leaves the
16-bit mask as it was (the bit falls off in the conversion to `uint16_t`), and
`inputState(0, joypad, 0, 16)` then returns 0, not 1. -/
theorem C4_counterexample_id_16 :
    (setInputState startGlobals 16 true).map (fun g => g.g_joypad_mask) = some 0 ∧
    (setInputState startGlobals 16 true).bind
        (fun g => input_state_cb libretro_h g 0 libretro_h.RETRO_DEVICE_JOYPAD 0 16) = some 0 := by
  decide

/-- C4, amended: for every button id from 0 to 15, every prior mask and every
index, `setInputState(id, true)` succeeds and `inputState(0, joypad, index, id)`
then returns 1; `setInputState(id, false)` succeeds and it then returns 0. -/
theorem C4_set_then_read {κ : Type} (hdr : LibretroH) (g : Globals κ) (id index : Nat)
    (hid : id ≤ 15) :
    (∃ g1, setInputState g (id : Int) true = some g1 ∧
        input_state_cb hdr g1 0 hdr.RETRO_DEVICE_JOYPAD index id = some 1) ∧
    (∃ g0, setInputState g (id : Int) false = some g0 ∧
        input_state_cb hdr g0 0 hdr.RETRO_DEVICE_JOYPAD index id = some 0) := by
  have h32 : id < 32 := by omega
  have h16 : id < 16 := by omega
  constructor
  · refine ⟨_, setInputState_pressed g id h32, ?_⟩
    have hb : ((g.g_joypad_mask ||| (1 <<< id)) % 2 ^ 16).testBit id = true := by
      rw [testBit_set]; simp [h16]
    rw [input_state_cb_eq hdr _ 0 _ index id (Or.inl h32), if_pos ⟨rfl, rfl, hb⟩]
  · refine ⟨_, setInputState_released g id h32, ?_⟩
    have hb : ¬ ((g.g_joypad_mask &&& (2 ^ 32 - 1 - (1 <<< id))) % 2 ^ 16).testBit id = true := by
      rw [testBit_clear _ _ _ h32]; simp
    rw [input_state_cb_eq hdr _ 0 _ index id (Or.inl h32), if_neg (fun hc => hb hc.2.2)]

/-- C4, amended, at button 15 with every bit of the mask set beforehand. -/
theorem C4_set_then_read_witness :
    (15 : Nat) ≤ 15 ∧
    ((∃ g1, setInputState { startGlobals with g_joypad_mask := 65535 } ((15 : Nat) : Int) true
          = some g1 ∧
        input_state_cb libretro_h g1 0 libretro_h.RETRO_DEVICE_JOYPAD 3 15 = some 1) ∧
     (∃ g0, setInputState { startGlobals with g_joypad_mask := 65535 } ((15 : Nat) : Int) false
          = some g0 ∧
        input_state_cb libretro_h g0 0 libretro_h.RETRO_DEVICE_JOYPAD 3 15 = some 0)) :=
  ⟨by decide,
   C4_set_then_read libretro_h { startGlobals with g_joypad_mask := 65535 } 15 3 (by decide)⟩

/-! ## C6: what `input_state_cb` returns -/

/-- C6, as stated, fails at id 32 on port 0 with the joypad device: the shift
`1 << 32` of an `int` is undefined, so the callback has no defined result there
(it returns neither 0 nor 1 by the language). -/
theorem C6_counterexample_id_32 :
    input_state_cb libretro_h { startGlobals with g_joypad_mask := 1 } 0
        libretro_h.RETRO_DEVICE_JOYPAD 0 32 = none := by
  decide

/-- C6, amended: for every port, device, index and mask, and every id below 32
(and for every id at all when the port is not 0 or the device is not the
joypad), `inputState` returns 1 if port = 0, the device is the joypad and bit
`id` of the mask is set, and 0 in every other case; as a call made by the core
it leaves the globals, the mask among them, as they were. -/
theorem C6_input_state {κ : Type} (hdr : LibretroH) (g : Globals κ)
    (port device index id : Nat)
    (h : id < 32 ∨ port ≠ 0 ∨ device ≠ hdr.RETRO_DEVICE_JOYPAD) :
    input_state_cb hdr g port device index id
      = some (if port = 0 ∧ device = hdr.RETRO_DEVICE_JOYPAD ∧ g.g_joypad_mask.testBit id = true
          then 1 else 0) ∧
    exec hdr (CoreProg.input_state port device index id CoreProg.ret) g
      = some ((if port = 0 ∧ device = hdr.RETRO_DEVICE_JOYPAD ∧ g.g_joypad_mask.testBit id = true
          then 1 else 0), g) := by
  have e := input_state_cb_eq hdr g port device index id h
  refine ⟨e, ?_⟩
  simp only [exec, e]

/-- C6, amended, on port 1 with button 3 pressed: the answer is 0. -/
theorem C6_input_state_witness :
    ((3 : Nat) < 32 ∨ (1 : Nat) ≠ 0 ∨ (1 : Nat) ≠ libretro_h.RETRO_DEVICE_JOYPAD) ∧
    input_state_cb libretro_h { startGlobals with g_joypad_mask := 8 } 1 1 0 3
      = some (if (1 : Nat) = 0 ∧ (1 : Nat) = libretro_h.RETRO_DEVICE_JOYPAD ∧
          ({ startGlobals with g_joypad_mask := 8 } : Globals Unit).g_joypad_mask.testBit 3 = true
          then 1 else 0) :=
  ⟨Or.inl (by decide),
   (C6_input_state libretro_h { startGlobals with g_joypad_mask := 8 } 1 1 0 3
      (Or.inl (by decide))).1⟩

/-! ## C7: the environment callback -/

/-- C7: called with the pixel-format command on a payload cell holding any
value, `environment_cb` returns true and the cell then holds RGB 5-6-5; called
with any other command it returns false and the payload is as it was. -/
theorem C7_environment_cb (hdr : LibretroH) :
    (∀ v : Nat, environment_cb hdr RETRO_ENVIRONMENT_GET_PIXEL_FORMAT (some v)
        = some (true, some hdr.RETRO_PIXEL_FORMAT_RGB565)) ∧
    (∀ (cmd : Nat) (data : Option Nat), cmd ≠ RETRO_ENVIRONMENT_GET_PIXEL_FORMAT →
        environment_cb hdr cmd data = some (false, data)) := by
  constructor
  · intro v
    simp [environment_cb]
  · intro cmd data hne
    simp [environment_cb, hne]

/-- C7 at command 11 with a payload cell holding 7. -/
theorem C7_environment_cb_witness :
    (11 : Nat) ≠ RETRO_ENVIRONMENT_GET_PIXEL_FORMAT ∧
    environment_cb libretro_h 11 (some 7) = some (false, some 7) :=
  ⟨by decide, (C7_environment_cb libretro_h).2 11 (some 7) (by decide)⟩

/-! ## C8: sample by sample, or in one batch -/

theorem feedSamples_buffer {κ : Type} (pairs : List (Int × Int)) (g : Globals κ) :
    feedSamples g pairs = { g with g_audio_buffer := g.g_audio_buffer ++ interleave pairs } := by
  induction pairs generalizing g with
  | nil => simp [feedSamples, interleave]
  | cons p rest ih =>
    have step : feedSamples g (p :: rest) = feedSamples (audio_sample_cb g p.1 p.2) rest := rfl
    rw [step, ih]
    simp [audio_sample_cb, interleave]

theorem interleave_length (pairs : List (Int × Int)) :
    (interleave pairs).length = pairs.length * 2 := by
  induction pairs with
  | nil => rfl
  | cons p rest ih => simp [interleave, ih]; omega

/-- C8: for every starting queue and every sequence of k stereo pairs (k below
2^63, so that the 2k samples can be counted in a `size_t`), one
`audioSampleBatch` call on the interleaved pairs is defined, returns k, and
leaves the globals, the queue among them, exactly as the k calls of
`audioSample` do: the old queue followed by `L_1, R_1, ..., L_k, R_k`. -/
theorem C8_batch_eq_samples {κ : Type} (g : Globals κ) (pairs : List (Int × Int))
    (hk : pairs.length < 2 ^ 63) :
    audio_sample_batch_cb g (interleave pairs) pairs.length
      = some (feedSamples g pairs, pairs.length) ∧
    (feedSamples g pairs).g_audio_buffer = g.g_audio_buffer ++ interleave pairs := by
  have hmod : pairs.length * 2 % 2 ^ 64 = pairs.length * 2 := Nat.mod_eq_of_lt (by omega)
  have hlen := interleave_length pairs
  constructor
  · unfold audio_sample_batch_cb
    rw [hmod, if_pos (by omega), feedSamples_buffer, ← hlen, List.take_length]
  · rw [feedSamples_buffer]

/-- C8 on a queue holding two samples and two pairs. -/
theorem C8_batch_eq_samples_witness :
    ([((1 : Int), (2 : Int)), (3, 4)] : List (Int × Int)).length < 2 ^ 63 ∧
    (feedSamples { startGlobals with g_audio_buffer := [9, 8] } [(1, 2), (3, 4)]).g_audio_buffer
      = ({ startGlobals with g_audio_buffer := [9, 8] } : Globals Unit).g_audio_buffer
          ++ interleave [(1, 2), (3, 4)] :=
  ⟨by decide,
   (C8_batch_eq_samples { startGlobals with g_audio_buffer := [9, 8] } [(1, 2), (3, 4)]
      (by decide)).2⟩

/-! ## C9: `runFrame` without a run entry point -/

/-- C9: when `ptr_retro_run` is null, `runFrame` returns 0 and the globals (frame
buffer, audio queue, joypad mask, call log and all the rest), the bitmap and
the audio array are exactly as they were. -/
theorem C9_runFrame_unbound {κ : Type} (hdr : LibretroH) (g : Globals κ) (bitmap : Bitmap)
    (audioArray : List Int) (h : g.ptr_retro_run = none) :
    runFrame hdr g bitmap audioArray
      = some { globals := g, bitmap := bitmap, audioArray := audioArray, ret := 0 } := by
  simp only [runFrame, h]

/-- C9 on a state with samples queued, a frame buffered and a button held. -/
theorem C9_runFrame_unbound_witness :
    ({ startGlobals with
        g_audio_buffer := [5, 6], g_joypad_mask := 3, g_video_buffer := some [1, 2]
        g_video_width := 1, g_video_height := 1 } : Globals Unit).ptr_retro_run = none ∧
    runFrame libretro_h
        { startGlobals with
          g_audio_buffer := [5, 6], g_joypad_mask := 3, g_video_buffer := some [1, 2]
          g_video_width := 1, g_video_height := 1 }
        { lockable := true, pixels := [0, 0] } [0, 0, 0]
      = some { globals :=
                { startGlobals with
                  g_audio_buffer := [5, 6], g_joypad_mask := 3, g_video_buffer := some [1, 2]
                  g_video_width := 1, g_video_height := 1 }
               bitmap := { lockable := true, pixels := [0, 0] }
               audioArray := [0, 0, 0]
               ret := 0 } :=
  ⟨rfl, C9_runFrame_unbound libretro_h _ _ _ rfl⟩

/-! ## What the callbacks of a core can reach -/

/-- A video callback that returns has written nothing but the frame buffer and
its recorded dimensions. -/
theorem video_refresh_cb_frame {κ : Type} (g g1 : Globals κ) (data : Option (List Byte))
    (width height pitch : Nat) (h : video_refresh_cb g data width height pitch = some g1) :
    g1.withoutMedia = g.withoutMedia ∧ g1.g_audio_buffer = g.g_audio_buffer := by
  unfold video_refresh_cb at h
  cases data with
  | none =>
    simp only [Option.some.injEq] at h
    rw [← h]; exact ⟨rfl, rfl⟩
  | some src =>
    simp only at h
    by_cases hne : width ≠ g.g_video_width ∨ height ≠ g.g_video_height
    · simp only [if_pos hne] at h
      cases hc : copyRows src width pitch height 0 0
          (malloc g.heap (video_buffer_size width height)) with
      | none => rw [hc] at h; exact absurd h (by simp)
      | some dst1 =>
        rw [hc] at h
        simp only [Option.some.injEq] at h
        rw [← h]; exact ⟨rfl, rfl⟩
    · simp only [if_neg hne] at h
      cases hb : g.g_video_buffer with
      | none =>
        rw [hb] at h
        simp only at h
        split at h
        · simp only [Option.some.injEq] at h
          rw [← h]; exact ⟨rfl, rfl⟩
        · exact absurd h (by simp)
      | some buf =>
        rw [hb] at h
        simp only at h
        cases hc : copyRows src width pitch height 0 0 buf with
        | none => rw [hc] at h; exact absurd h (by simp)
        | some dst1 =>
          rw [hc] at h
          simp only [Option.some.injEq] at h
          rw [← h]; exact ⟨rfl, rfl⟩

/-- A batch callback that returns has appended an even number of samples and
written nothing else. -/
theorem audio_sample_batch_cb_frame {κ : Type} (g g1 : Globals κ) (data : List Int)
    (frames r : Nat) (h : audio_sample_batch_cb g data frames = some (g1, r)) :
    g1.withoutMedia = g.withoutMedia ∧
    g1.g_audio_buffer.length % 2 = g.g_audio_buffer.length % 2 := by
  unfold audio_sample_batch_cb at h
  split at h
  · rename_i hle
    simp only [Option.some.injEq, Prod.mk.injEq] at h
    rw [← h.1]
    refine ⟨rfl, ?_⟩
    show (g.g_audio_buffer ++ data.take (frames * 2 % 2 ^ 64)).length % 2 = _
    rw [List.length_append, List.length_take]
    omega
  · exact absurd h (by simp)

/-- Whatever a core does during a call, it leaves alone everything but the
frame buffer, its recorded dimensions and the audio queue, and it keeps the
parity of the length of the audio queue. -/
theorem exec_frame {κ α : Type} (hdr : LibretroH) (p : CoreProg α) :
    ∀ (g g1 : Globals κ) (a : α), exec hdr p g = some (a, g1) →
      g1.withoutMedia = g.withoutMedia ∧
      g1.g_audio_buffer.length % 2 = g.g_audio_buffer.length % 2 := by
  induction p with
  | ret b =>
    intro g g1 a h
    simp only [exec, Option.some.injEq, Prod.mk.injEq] at h
    rw [← h.2]; exact ⟨rfl, rfl⟩
  | video_refresh data width height pitch k ih =>
    intro g g1 a h
    simp only [exec] at h
    cases hv : video_refresh_cb g data width height pitch with
    | none => rw [hv] at h; exact absurd h (by simp)
    | some g2 =>
      rw [hv] at h
      obtain ⟨e1, e2⟩ := video_refresh_cb_frame g g2 data width height pitch hv
      obtain ⟨f1, f2⟩ := ih g2 g1 a h
      exact ⟨f1.trans e1, by rw [f2, e2]⟩
  | audio_sample left right k ih =>
    intro g g1 a h
    simp only [exec] at h
    obtain ⟨f1, f2⟩ := ih _ g1 a h
    refine ⟨f1.trans rfl, ?_⟩
    rw [f2]
    show ((g.g_audio_buffer ++ [left]) ++ [right]).length % 2 = _
    simp only [List.length_append, List.length_singleton]
    omega
  | audio_sample_batch data frames k ih =>
    intro g g1 a h
    simp only [exec] at h
    cases hb : audio_sample_batch_cb g data frames with
    | none => rw [hb] at h; exact absurd h (by simp)
    | some res =>
      obtain ⟨g2, r⟩ := res
      rw [hb] at h
      obtain ⟨e1, e2⟩ := audio_sample_batch_cb_frame g g2 data frames r hb
      obtain ⟨f1, f2⟩ := ih r g2 g1 a h
      exact ⟨f1.trans e1, by rw [f2, e2]⟩
  | input_poll k ih =>
    intro g g1 a h
    simp only [exec] at h
    exact ih _ g1 a h
  | input_state port device index id k ih =>
    intro g g1 a h
    simp only [exec] at h
    cases hs : input_state_cb hdr g port device index id with
    | none => rw [hs] at h; exact absurd h (by simp)
    | some r =>
      rw [hs] at h
      exact ih r g g1 a h
  | environment cmd data k ih =>
    intro g g1 a h
    simp only [exec] at h
    cases he : environment_cb hdr cmd data with
    | none => rw [he] at h; exact absurd h (by simp)
    | some res =>
      obtain ⟨r, data1⟩ := res
      rw [he] at h
      exact ih r data1 g g1 a h

/-! ## `loadCore` in closed form -/

/-- Invoking two lists of entry points one after the other. -/
theorem runEntries_append {κ R : Type} (hdr : LibretroH) (l1 l2 : List (CoreCall × (κ → CoreProg κ)))
    (K : Globals κ → Option R) :
    ∀ g : Globals κ, (runEntries hdr g (l1 ++ l2)).bind K
      = (runEntries hdr g l1).bind (fun g1 => (runEntries hdr g1 l2).bind K) := by
  induction l1 with
  | nil => intro g; rfl
  | cons entry rest ih =>
    intro g
    simp only [List.cons_append, runEntries]
    cases exec hdr (entry.2 g.core) { g with trace := g.trace ++ [entry.1] } with
    | none => rfl
    | some res => exact ih _

/-- Entry points that return leave the function pointers as they were and add
their calls, in order, to the call log. -/
theorem runEntries_frame {κ : Type} (hdr : LibretroH) (l : List (CoreCall × (κ → CoreProg κ))) :
    ∀ g g1 : Globals κ, runEntries hdr g l = some g1 →
      g1.bindings = g.bindings ∧ g1.trace = g.trace ++ l.map Prod.fst ∧
      g1.coreHandle = g.coreHandle := by
  induction l with
  | nil =>
    intro g g1 h
    simp only [runEntries, Option.some.injEq] at h
    rw [← h]
    exact ⟨rfl, by simp, rfl⟩
  | cons entry rest ih =>
    intro g g1 h
    rw [runEntries] at h
    cases he : exec hdr (entry.2 g.core) { g with trace := g.trace ++ [entry.1] } with
    | none => rw [he] at h; exact absurd h (by simp)
    | some res =>
      obtain ⟨c, g2⟩ := res
      rw [he] at h
      have hframe := (exec_frame hdr _ _ g2 c he).1
      have hb : g2.withoutMedia.bindings
          = ({ g with trace := g.trace ++ [entry.1] } : Globals κ).withoutMedia.bindings :=
        congrArg Globals.bindings hframe
      have ht : g2.withoutMedia.trace
          = ({ g with trace := g.trace ++ [entry.1] } : Globals κ).withoutMedia.trace :=
        congrArg Globals.trace hframe
      have hh : g2.withoutMedia.coreHandle
          = ({ g with trace := g.trace ++ [entry.1] } : Globals κ).withoutMedia.coreHandle :=
        congrArg Globals.coreHandle hframe
      obtain ⟨i1, i2, i3⟩ := ih _ g1 h
      refine ⟨i1.trans hb, ?_, i3.trans hh⟩
      rw [i2]
      show g2.trace ++ _ = _
      have ht2 : g2.trace = g.trace ++ [entry.1] := ht
      rw [ht2]
      simp

/-- The statement `if (ptr) ptr(cb);` invokes the setter if it is exported, and
nothing otherwise. -/
theorem callSetter_eq {κ : Type} (hdr : LibretroH) (g : Globals κ)
    (ptr : Option (Callback → κ → CoreProg κ)) (call : Callback → CoreCall) (cb : Callback) :
    callSetter hdr g ptr call cb
      = runEntries hdr g (presentEntry ptr (call cb) (fun f => f cb)) := by
  cases ptr with
  | none => rfl
  | some f =>
    simp only [callSetter, callCore, presentEntry, runEntries]

/-- One guarded call of `loadCore`, followed by the rest of the function. -/
theorem setter_step {κ R : Type} (hdr : LibretroH) (g : Globals κ) (m : Module κ)
    (hb : g.bindings = m) (sel : Module κ → Option (Callback → κ → CoreProg κ))
    (call : Callback → CoreCall) (cb : Callback)
    (rest : List (CoreCall × (κ → CoreProg κ)))
    (K : Globals κ → Option R) (K2 : Globals κ → Option R)
    (hK : ∀ g1 : Globals κ, g1.bindings = m → K g1 = (runEntries hdr g1 rest).bind K2) :
    (callSetter hdr g (sel g.bindings) call cb).bind K
      = (runEntries hdr g (presentEntry (sel m) (call cb) (fun f => f cb) ++ rest)).bind K2 := by
  rw [runEntries_append, callSetter_eq, hb]
  cases hr : runEntries hdr g (presentEntry (sel m) (call cb) (fun f => f cb)) with
  | none => rfl
  | some g1 =>
    have hb1 := (runEntries_frame hdr _ g g1 hr).1
    exact hK g1 (hb1.trans hb)

/-- `loadCore` on a path where a module opens: it returns exactly when every
entry point it is to invoke returns, the result is true, and the globals are
those left by invoking them. -/
theorem loadCore_eq {κ : Type} (hdr : LibretroH) (dlopen : String → Option (Module κ))
    (g : Globals κ) (corePath : String) (m : Module κ) (hopen : dlopen corePath = some m) :
    loadCore hdr dlopen g corePath
      = (runEntries hdr (bindModule g m) (setupEntries m)).bind (fun g1 => some (g1, true)) := by
  unfold loadCore
  rw [hopen]
  show (callSetter hdr (bindModule g m)
      (Module.retro_set_environment (bindModule g m).bindings) _ _).bind _ = _
  unfold setupEntries
  refine setter_step hdr (bindModule g m) m rfl Module.retro_set_environment _ _ _ _ _
    (fun g1 hb1 => ?_)
  refine setter_step hdr g1 m hb1 Module.retro_set_video_refresh _ _ _ _ _ (fun g2 hb2 => ?_)
  refine setter_step hdr g2 m hb2 Module.retro_set_audio_sample _ _ _ _ _ (fun g3 hb3 => ?_)
  refine setter_step hdr g3 m hb3 Module.retro_set_audio_sample_batch _ _ _ _ _
    (fun g4 hb4 => ?_)
  refine setter_step hdr g4 m hb4 Module.retro_set_input_poll _ _ _ _ _ (fun g5 hb5 => ?_)
  refine setter_step hdr g5 m hb5 Module.retro_set_input_state _ _ _ _ _ (fun g6 hb6 => ?_)
  have e7 : g6.ptr_retro_init = m.retro_init := congrArg Module.retro_init hb6
  rw [e7]
  cases m.retro_init with
  | none => rfl
  | some f =>
    simp only [callCore, presentEntry, runEntries]

/-- The log entries of the entry points `loadCore` is to invoke. -/
theorem setupEntries_calls {κ : Type} (m : Module κ) :
    (setupEntries m).map Prod.fst = setupCalls m := by
  have hp : ∀ {β : Type} (ptr : Option β) (call : CoreCall) (apply : β → κ → CoreProg κ),
      (presentEntry ptr call apply).map Prod.fst = presentCall ptr call := by
    intro β ptr call apply
    cases ptr <;> rfl
  simp only [setupEntries, setupCalls, List.map_append, hp, List.append_assoc]

/-- What a `loadCore` that returned on an opened module has done. -/
theorem loadCore_returned {κ : Type} (hdr : LibretroH) (dlopen : String → Option (Module κ))
    (g g1 : Globals κ) (corePath : String) (m : Module κ) (result : Bool)
    (hopen : dlopen corePath = some m)
    (h : loadCore hdr dlopen g corePath = some (g1, result)) :
    result = true ∧ runEntries hdr (bindModule g m) (setupEntries m) = some g1 ∧
    g1.trace = g.trace ++ setupCalls m ∧ g1.bindings = m ∧ g1.coreHandle = some m := by
  rw [loadCore_eq hdr dlopen g corePath m hopen] at h
  cases hr : runEntries hdr (bindModule g m) (setupEntries m) with
  | none => rw [hr] at h; exact absurd h (by simp)
  | some g2 =>
    rw [hr] at h
    simp only [Option.some_bind, Option.some.injEq, Prod.mk.injEq] at h
    obtain ⟨h1, h2⟩ := h
    subst h1
    obtain ⟨i1, i2, i3⟩ := runEntries_frame hdr _ _ g2 hr
    refine ⟨h2.symm, rfl, ?_, i1, i3⟩
    rw [i2, setupEntries_calls]
    rfl

/-- Entry points that only note their own call in the private state of the
core: invoking them appends the calls to that state (and to the call log). -/
theorem runEntries_recording (hdr : LibretroH)
    (l : List (CoreCall × (List CoreCall → CoreProg (List CoreCall))))
    (hrec : ∀ entry ∈ l, entry.2 = fun c => CoreProg.ret (c ++ [entry.1])) :
    ∀ g : Globals (List CoreCall), runEntries hdr g l
      = some { g with trace := g.trace ++ l.map Prod.fst, core := g.core ++ l.map Prod.fst } := by
  induction l with
  | nil =>
    intro g
    simp [runEntries]
  | cons entry rest ih =>
    intro g
    have he := hrec entry (List.mem_cons_self _ _)
    rw [runEntries, he]
    simp only [exec]
    rw [ih (fun x hx => hrec x (List.mem_cons_of_mem _ hx))]
    simp

/-- Every entry point of a recording module notes its own call, setters with
the callback they were handed. -/
theorem recordingModule_entries (e : Exports) :
    ∀ entry ∈ setupEntries (recordingModule e),
      entry.2 = fun c => CoreProg.ret (c ++ [entry.1]) := by
  have hp : ∀ {β : Type} (present : Bool) (f : β) (call : CoreCall)
      (apply : β → List CoreCall → CoreProg (List CoreCall)),
      apply f = (fun c => CoreProg.ret (c ++ [call])) →
      ∀ entry ∈ presentEntry (exported present f) call apply,
        entry.2 = fun c => CoreProg.ret (c ++ [entry.1]) := by
    intro β present f call apply happ entry hmem
    cases present with
    | false => simp [exported, presentEntry] at hmem
    | true =>
      simp only [exported, presentEntry, if_true, List.mem_singleton] at hmem
      rw [hmem]
      exact happ
  intro entry hmem
  simp only [setupEntries, recordingModule, List.mem_append] at hmem
  rcases hmem with h | h | h | h | h | h | h
  · exact hp _ _ _ _ rfl entry h
  · exact hp _ _ _ _ rfl entry h
  · exact hp _ _ _ _ rfl entry h
  · exact hp _ _ _ _ rfl entry h
  · exact hp _ _ _ _ rfl entry h
  · exact hp _ _ _ _ rfl entry h
  · exact hp _ _ _ _ rfl entry h

/-! ## C10: `runFrame` and the session state -/

/-- While no load has succeeded, no entry point is bound and the core has not
been called. -/
theorem hostSteps_unloaded {κ : Type} (hdr : LibretroH) (dlopen : String → Option (Module κ))
    (calls : List HostCall) (g g1 : Globals κ)
    (hfail : ∀ corePath, HostCall.loadCore corePath ∈ calls → dlopen corePath = none)
    (hinv : g.ptr_retro_run = none ∧ g.ptr_retro_load_game = none ∧ g.trace = [])
    (hsteps : hostSteps hdr dlopen g calls = some g1) :
    g1.ptr_retro_run = none ∧ g1.ptr_retro_load_game = none ∧ g1.trace = [] := by
  induction calls generalizing g with
  | nil =>
    simp only [hostSteps, Option.some.injEq] at hsteps
    rw [← hsteps]; exact hinv
  | cons c cs ih =>
    simp only [hostSteps] at hsteps
    cases hc : hostStep hdr dlopen g c with
    | none => simp [hc] at hsteps
    | some g2 =>
      simp only [hc] at hsteps
      refine ih g2 (fun corePath hmem => hfail corePath (List.mem_cons_of_mem _ hmem)) ?_ hsteps
      obtain ⟨h1, h2, h3⟩ := hinv
      cases c with
      | loadCore corePath =>
        have hd := hfail corePath (List.mem_cons_self _ _)
        simp only [hostStep, loadCore, hd, Option.map_some', Option.some.injEq] at hc
        rw [← hc]; exact ⟨h1, h2, h3⟩
      | loadGame gamePath =>
        simp only [hostStep, loadGame, h2, Option.map_some', Option.some.injEq] at hc
        rw [← hc]; exact ⟨h1, h2, h3⟩
      | setInputState buttonId pressed =>
        simp only [hostStep, setInputState] at hc
        split at hc
        · split at hc <;>
            (simp only [Option.some.injEq] at hc; rw [← hc]; exact ⟨h1, h2, h3⟩)
        · simp at hc
      | runFrame bitmap audioArray =>
        simp only [hostStep, runFrame, h1, Option.map_some', Option.some.injEq] at hc
        rw [← hc]; exact ⟨h1, h2, h3⟩

/-- Without a frame buffer the video step leaves the bitmap as it was. -/
theorem drainVideo_unallocated {κ : Type} (g : Globals κ) (bitmap : Bitmap)
    (hnull : g.g_video_buffer = none) : drainVideo g bitmap = some bitmap := by
  simp only [drainVideo, hnull]

/-- The video step where the frame fits 32 bits and the bitmap holds it: the
first `width * height * 2` bytes of the bitmap become the whole frame buffer,
the bytes after them stay. -/
theorem drainVideo_full {κ : Type} (g : Globals κ) (buf : List Byte) (bitmap : Bitmap)
    (hbuf : g.g_video_buffer = some buf) (hinv : FrameInv g)
    (hlock : bitmap.lockable = true)
    (hfit : g.g_video_width * g.g_video_height * 2 < 2 ^ 32)
    (hsink : g.g_video_width * g.g_video_height * 2 ≤ bitmap.pixels.length) :
    drainVideo g bitmap
      = some { bitmap with
               pixels := buf ++ bitmap.pixels.drop (g.g_video_width * g.g_video_height * 2) } ∧
    buf.length = g.g_video_width * g.g_video_height * 2 ∧
    (buf ++ bitmap.pixels.drop (g.g_video_width * g.g_video_height * 2)).take
        (g.g_video_width * g.g_video_height * 2) = buf := by
  have hcs : bitmap_copy_size g.g_video_width g.g_video_height
      = g.g_video_width * g.g_video_height * 2 := by
    unfold bitmap_copy_size
    omega
  have hvs : video_buffer_size g.g_video_width g.g_video_height
      = g.g_video_width * g.g_video_height * 2 := by
    rw [video_buffer_size_eq _ _ (by omega)]
    ring
  have hlen : buf.length = g.g_video_width * g.g_video_height * 2 := by
    unfold FrameInv at hinv
    rw [hbuf] at hinv
    rw [hinv, hvs]
  refine ⟨?_, hlen, List.take_left' hlen⟩
  unfold drainVideo
  rw [hbuf]
  simp only [hlock, if_true]
  rw [hcs]
  have hcopy : memcpy bitmap.pixels 0 buf 0 (g.g_video_width * g.g_video_height * 2)
      = some (buf ++ bitmap.pixels.drop (g.g_video_width * g.g_video_height * 2)) := by
    unfold memcpy
    rw [if_pos ⟨by omega, by omega⟩, List.take_zero, List.nil_append, List.drop_zero,
      Nat.zero_add, ← hlen, List.take_length]
  rw [hcopy]

/-- The frame buffer invariant survives whatever a core does during a call. -/
theorem exec_inv {κ α : Type} (hdr : LibretroH) (p : CoreProg α) :
    ∀ (g g1 : Globals κ) (a : α), FrameInv g → exec hdr p g = some (a, g1) → FrameInv g1 := by
  induction p with
  | ret b =>
    intro g g1 a hinv h
    simp only [exec, Option.some.injEq, Prod.mk.injEq] at h
    rw [← h.2]; exact hinv
  | video_refresh data width height pitch k ih =>
    intro g g1 a hinv h
    simp only [exec] at h
    cases hv : video_refresh_cb g data width height pitch with
    | none => rw [hv] at h; exact absurd h (by simp)
    | some g2 =>
      rw [hv] at h
      exact ih g2 g1 a (video_refresh_cb_inv g g2 data width height pitch hinv hv) h
  | audio_sample left right k ih =>
    intro g g1 a hinv h
    simp only [exec] at h
    exact ih (audio_sample_cb g left right) g1 a hinv h
  | audio_sample_batch data frames k ih =>
    intro g g1 a hinv h
    simp only [exec] at h
    cases hb : audio_sample_batch_cb g data frames with
    | none => rw [hb] at h; exact absurd h (by simp)
    | some res =>
      obtain ⟨g2, r⟩ := res
      rw [hb] at h
      refine ih r g2 g1 a ?_ h
      unfold audio_sample_batch_cb at hb
      split at hb
      · simp only [Option.some.injEq, Prod.mk.injEq] at hb
        rw [← hb.1]; exact hinv
      · exact absurd hb (by simp)
  | input_poll k ih =>
    intro g g1 a hinv h
    simp only [exec] at h
    exact ih (input_poll_cb g) g1 a hinv h
  | input_state port device index id k ih =>
    intro g g1 a hinv h
    simp only [exec] at h
    cases hs : input_state_cb hdr g port device index id with
    | none => rw [hs] at h; exact absurd h (by simp)
    | some r =>
      rw [hs] at h
      exact ih r g g1 a hinv h
  | environment cmd data k ih =>
    intro g g1 a hinv h
    simp only [exec] at h
    cases he : environment_cb hdr cmd data with
    | none => rw [he] at h; exact absurd h (by simp)
    | some res =>
      obtain ⟨r, data1⟩ := res
      rw [he] at h
      exact ih r data1 g g1 a hinv h

/-- The frame buffer invariant survives a call into the core. -/
theorem callCore_inv {κ : Type} (hdr : LibretroH) (g g1 : Globals κ) (call : CoreCall)
    (f : κ → CoreProg κ) (hinv : FrameInv g) (h : callCore hdr g call f = some g1) :
    FrameInv g1 := by
  unfold callCore at h
  cases he : exec hdr (f g.core) { g with trace := g.trace ++ [call] } with
  | none => rw [he] at h; exact absurd h (by simp)
  | some res =>
    obtain ⟨c, g2⟩ := res
    rw [he] at h
    simp only [Option.some.injEq] at h
    have h2 : FrameInv g2 :=
      exec_inv hdr (f g.core) { g with trace := g.trace ++ [call] } g2 c hinv he
    rw [← h]; exact h2

/-- The video copy of `runFrame` for frames below 2^32 bytes: with run bound,
the bitmap lockable and the invariant holding beforehand, let the core's run
end in `g1`.  If the frame buffer of `g1` is allocated, its dimensions W, H
satisfy `W * H * 2 < 2^32` and the bitmap holds at least `W * H * 2` bytes, then
`runFrame` returns and the first `W * H * 2` bytes of the bitmap are the whole
frame buffer.  If the frame buffer is not allocated, `runFrame` returns and the
bitmap is as it was. -/
theorem runFrame_video {κ : Type} (hdr : LibretroH) (g g1 : Globals κ) (run : κ → CoreProg κ)
    (bitmap : Bitmap) (audioArray : List Int)
    (hrun : g.ptr_retro_run = some run)
    (hcore : callCore hdr g CoreCall.retro_run run = some g1)
    (hinv : FrameInv g) (hlock : bitmap.lockable = true) :
    (∀ buf, g1.g_video_buffer = some buf →
      g1.g_video_width * g1.g_video_height * 2 < 2 ^ 32 →
      g1.g_video_width * g1.g_video_height * 2 ≤ bitmap.pixels.length →
      ∃ r, runFrame hdr g bitmap audioArray = some r ∧
        r.bitmap.pixels.take (g1.g_video_width * g1.g_video_height * 2) = buf ∧
        buf.length = g1.g_video_width * g1.g_video_height * 2 ∧
        r.globals.g_video_buffer = some buf) ∧
    (g1.g_video_buffer = none →
      ∃ r, runFrame hdr g bitmap audioArray = some r ∧ r.bitmap = bitmap) := by
  have hinv1 : FrameInv g1 := callCore_inv hdr g g1 CoreCall.retro_run run hinv hcore
  constructor
  · intro buf hbuf hfit hsink
    obtain ⟨hd, hlen, htake⟩ := drainVideo_full g1 buf bitmap hbuf hinv1 hlock hfit hsink
    exact ⟨_, runFrame_eq hdr g g1 run bitmap _ audioArray hrun hcore hd, htake, hlen, hbuf⟩
  · intro hnull
    exact ⟨_, runFrame_eq hdr g g1 run bitmap bitmap audioArray hrun hcore
      (drainVideo_unallocated g1 bitmap hnull), rfl⟩

/-- The frame buffer invariant survives the entry points `loadCore` invokes. -/
theorem runEntries_inv {κ : Type} (hdr : LibretroH) (l : List (CoreCall × (κ → CoreProg κ))) :
    ∀ g g1 : Globals κ, FrameInv g → runEntries hdr g l = some g1 → FrameInv g1 := by
  induction l with
  | nil =>
    intro g g1 hinv h
    simp only [runEntries, Option.some.injEq] at h
    rw [← h]; exact hinv
  | cons entry rest ih =>
    intro g g1 hinv h
    rw [runEntries] at h
    cases he : exec hdr (entry.2 g.core) { g with trace := g.trace ++ [entry.1] } with
    | none => rw [he] at h; exact absurd h (by simp)
    | some res =>
      obtain ⟨c, g2⟩ := res
      rw [he] at h
      have h2 : FrameInv g2 :=
        exec_inv hdr (entry.2 g.core) { g with trace := g.trace ++ [entry.1] } g2 c hinv he
      exact ih { g2 with core := c } g1 h2 h

/-- The frame buffer invariant survives `loadGame`. -/
theorem loadGame_inv {κ : Type} (hdr : LibretroH) (g g1 : Globals κ) (gamePath : String)
    (success : Bool) (hinv : FrameInv g) (h : loadGame hdr g gamePath = some (g1, success)) :
    FrameInv g1 := by
  unfold loadGame at h
  simp only [] at h
  split at h
  · simp only [Option.some.injEq, Prod.mk.injEq] at h
    rw [← h.1]; exact hinv
  · split at h
    · exact absurd h (by simp)
    · rename_i f hf res b c g3 he
      simp only [Option.some.injEq, Prod.mk.injEq] at h
      have h3 : FrameInv g3 := exec_inv hdr _
        { g with
          trace := g.trace ++ [CoreCall.retro_load_game
            { path := some gamePath, data := none, size := 0, meta := none }] }
        g3 (b, c) hinv he
      rw [← h.1]; exact h3

/-- The frame buffer invariant holds in every state the host can reach from a
state in which it holds, process start among them. -/
theorem hostSteps_inv {κ : Type} (hdr : LibretroH) (dlopen : String → Option (Module κ))
    (calls : List HostCall) :
    ∀ g g1 : Globals κ, FrameInv g → hostSteps hdr dlopen g calls = some g1 → FrameInv g1 := by
  induction calls with
  | nil =>
    intro g g1 hinv h
    simp only [hostSteps, Option.some.injEq] at h
    rw [← h]; exact hinv
  | cons c cs ih =>
    intro g g1 hinv h
    simp only [hostSteps] at h
    cases hc : hostStep hdr dlopen g c with
    | none => rw [hc] at h; exact absurd h (by simp)
    | some g2 =>
      rw [hc] at h
      refine ih g2 g1 ?_ h
      cases c with
      | loadCore corePath =>
        simp only [hostStep] at hc
        cases hl : loadCore hdr dlopen g corePath with
        | none => rw [hl] at hc; exact absurd hc (by simp)
        | some res =>
          obtain ⟨g3, result⟩ := res
          rw [hl] at hc
          simp only [Option.map_some', Option.some.injEq] at hc
          subst hc
          cases hd : dlopen corePath with
          | none =>
            simp only [loadCore, hd, Option.some.injEq, Prod.mk.injEq] at hl
            rw [← hl.1]; exact hinv
          | some m =>
            have hr := (loadCore_returned hdr dlopen g g3 corePath m result hd hl).2.1
            exact runEntries_inv hdr _ (bindModule g m) g3 hinv hr
      | loadGame gamePath =>
        simp only [hostStep] at hc
        cases hl : loadGame hdr g gamePath with
        | none => rw [hl] at hc; exact absurd hc (by simp)
        | some res =>
          obtain ⟨g3, success⟩ := res
          rw [hl] at hc
          simp only [Option.map_some', Option.some.injEq] at hc
          subst hc
          exact loadGame_inv hdr g g3 gamePath success hinv hl
      | setInputState buttonId pressed =>
        simp only [hostStep, setInputState] at hc
        split at hc
        · split at hc <;> (simp only [Option.some.injEq] at hc; rw [← hc]; exact hinv)
        · exact absurd hc (by simp)
      | runFrame bitmap audioArray =>
        simp only [hostStep] at hc
        cases hr : runFrame hdr g bitmap audioArray with
        | none => rw [hr] at hc; exact absurd hc (by simp)
        | some r =>
          rw [hr] at hc
          simp only [Option.map_some', Option.some.injEq] at hc
          subst hc
          unfold runFrame at hr
          cases hrun : g.ptr_retro_run with
          | none =>
            rw [hrun] at hr
            simp only [Option.some.injEq] at hr
            rw [← hr]; exact hinv
          | some run =>
            rw [hrun] at hr
            simp only at hr
            cases hcc : callCore hdr g CoreCall.retro_run run with
            | none => rw [hcc] at hr; exact absurd hr (by simp)
            | some g3 =>
              rw [hcc] at hr
              simp only at hr
              cases hv : drainVideo g3 bitmap with
              | none => rw [hv] at hr; exact absurd hr (by simp)
              | some bitmap1 =>
                rw [hv] at hr
                simp only [Option.some.injEq] at hr
                have h3 : FrameInv g3 := callCore_inv hdr g g3 _ run hinv hcc
                rw [← hr]; exact h3

/-- C11: let run be bound and the bitmap lockable, in a state satisfying the
frame buffer invariant (every state the host can reach does), and let the
core's run return.  If the frame buffer is then allocated, with recorded
dimensions W and H, and the bitmap holds at least `W * H * 2` bytes (an Android
bitmap holds fewer than 2^32), `runFrame` returns and the first `W * H * 2`
bytes of the bitmap equal the whole frame buffer, which has exactly that many
bytes; the bytes of the bitmap after them are untouched.  If the frame buffer
is not allocated (no video callback has ever delivered a frame), `runFrame`
returns and the bitmap is byte for byte as it was. -/
theorem C11_runFrame_video {κ : Type} (hdr : LibretroH) (g g1 : Globals κ)
    (run : κ → CoreProg κ) (bitmap : Bitmap) (audioArray : List Int)
    (hrun : g.ptr_retro_run = some run)
    (hcore : callCore hdr g CoreCall.retro_run run = some g1)
    (hinv : FrameInv g) (hlock : bitmap.lockable = true)
    (hbitmap : bitmap.pixels.length < 2 ^ 32) :
    (∀ buf, g1.g_video_buffer = some buf →
      g1.g_video_width * g1.g_video_height * 2 ≤ bitmap.pixels.length →
      ∃ r, runFrame hdr g bitmap audioArray = some r ∧
        r.bitmap.pixels.take (g1.g_video_width * g1.g_video_height * 2) = buf ∧
        buf.length = g1.g_video_width * g1.g_video_height * 2 ∧
        r.bitmap.pixels.drop (g1.g_video_width * g1.g_video_height * 2)
          = bitmap.pixels.drop (g1.g_video_width * g1.g_video_height * 2) ∧
        r.globals.g_video_buffer = some buf) ∧
    (g1.g_video_buffer = none →
      ∃ r, runFrame hdr g bitmap audioArray = some r ∧ r.bitmap = bitmap) := by
  have hinv1 : FrameInv g1 := callCore_inv hdr g g1 CoreCall.retro_run run hinv hcore
  constructor
  · intro buf hbuf hsink
    have hfit : g1.g_video_width * g1.g_video_height * 2 < 2 ^ 32 := by omega
    obtain ⟨hd, hlen, htake⟩ := drainVideo_full g1 buf bitmap hbuf hinv1 hlock hfit hsink
    refine ⟨_, runFrame_eq hdr g g1 run bitmap _ audioArray hrun hcore hd, htake, hlen, ?_,
      hbuf⟩
    show List.drop _ (buf ++ _) = _
    rw [← hlen, List.drop_left]
  · intro hnull
    exact ⟨_, runFrame_eq hdr g g1 run bitmap bitmap audioArray hrun hcore
      (drainVideo_unallocated g1 bitmap hnull), rfl⟩

/-- C11 on a core that delivers a 2 x 2 frame of eight bytes into a bitmap of
ten bytes: the first eight bytes of the bitmap become the frame, the last two
stay; and on a core that delivers no frame: the bitmap stays as it was. -/
theorem C11_runFrame_video_witness :
    (smallFrameGlobals.ptr_retro_run = some smallFrameRun ∧
      callCore libretro_h smallFrameGlobals CoreCall.retro_run smallFrameRun
        = some smallFrameAfterRun ∧
      FrameInv smallFrameGlobals ∧
      ({ lockable := true, pixels := [0, 0, 0, 0, 0, 0, 0, 0, 70, 71] } : Bitmap).lockable = true ∧
      ({ lockable := true, pixels := [0, 0, 0, 0, 0, 0, 0, 0, 70, 71] } : Bitmap).pixels.length
        < 2 ^ 32 ∧
      smallFrameAfterRun.g_video_buffer = some [1, 2, 3, 4, 5, 6, 7, 8] ∧
      smallFrameAfterRun.g_video_width * smallFrameAfterRun.g_video_height * 2
        ≤ ({ lockable := true, pixels := [0, 0, 0, 0, 0, 0, 0, 0, 70, 71] } : Bitmap).pixels.length ∧
      ∃ r, runFrame libretro_h smallFrameGlobals
          { lockable := true, pixels := [0, 0, 0, 0, 0, 0, 0, 0, 70, 71] } [0, 0] = some r ∧
        r.bitmap.pixels.take (2 * 2 * 2) = [1, 2, 3, 4, 5, 6, 7, 8] ∧
        r.bitmap.pixels.drop (2 * 2 * 2) = [70, 71]) ∧
    (runBoundAfterRun.g_video_buffer = none ∧
      ∃ r, runFrame libretro_h runBoundGlobals
          { lockable := true, pixels := [0, 0, 0, 0] } [0, 0] = some r ∧
        r.bitmap = { lockable := true, pixels := [0, 0, 0, 0] }) := by
  have hinvS : FrameInv smallFrameGlobals := ⟨rfl, rfl⟩
  have hinvR : FrameInv runBoundGlobals := ⟨rfl, rfl⟩
  refine ⟨⟨rfl, rfl, hinvS, rfl, by decide, rfl, by decide, ?_⟩, rfl, ?_⟩
  · obtain ⟨r, hr, h1, _, h3, _⟩ :=
      (C11_runFrame_video libretro_h smallFrameGlobals smallFrameAfterRun smallFrameRun
        { lockable := true, pixels := [0, 0, 0, 0, 0, 0, 0, 0, 70, 71] } [0, 0]
        rfl rfl hinvS rfl (by decide)).1 [1, 2, 3, 4, 5, 6, 7, 8] rfl (by decide)
    exact ⟨r, hr, h1, h3⟩
  · exact (C11_runFrame_video libretro_h runBoundGlobals runBoundAfterRun twoPairsRun
      { lockable := true, pixels := [0, 0, 0, 0] } [0, 0] rfl rfl hinvR rfl (by decide)).2 rfl

/-! ## C12: a null frame -/

/-- C12: `videoRefresh` with null data is a no-op: for every prior state and
every width, height and pitch the callback returns with the globals (recorded
width and height, the frame buffer block and its bytes, and all the rest)
exactly as they were, also when it is the core that makes the call. -/
theorem C12_video_refresh_null {κ α : Type} (hdr : LibretroH) (g : Globals κ)
    (width height pitch : Nat) (a : α) :
    video_refresh_cb g none width height pitch = some g ∧
    exec hdr (CoreProg.video_refresh none width height pitch (CoreProg.ret a)) g = some (a, g) :=
  ⟨rfl, rfl⟩

/-! ## C13: `loadGame` -/

/-- C13: when `ptr_retro_load_game` is null (as it is before any load),
`loadGame` returns false and the globals, the call log among them, are as they
were: nothing in the core is called.  When it is bound and the core's
`retro_load_game` returns `success` on the descriptor whose path is the given
path (its other fields zero), `loadGame` returns exactly `success`, and the
call log has grown by exactly one entry: that call with that descriptor.  In
every state reached from process start without a load that opened a module,
`loadGame` is the unbound case. -/
theorem C13_loadGame {κ : Type} (hdr : LibretroH) (g : Globals κ) (gamePath : String) :
    (g.ptr_retro_load_game = none → loadGame hdr g gamePath = some (g, false)) ∧
    (∀ (f : retro_game_info → κ → CoreProg (Bool × κ)) (success : Bool) (c : κ)
        (g1 : Globals κ),
      g.ptr_retro_load_game = some f →
      exec hdr (f { path := some gamePath, data := none, size := 0, meta := none } g.core)
          { g with
            trace := g.trace ++ [CoreCall.retro_load_game
              { path := some gamePath, data := none, size := 0, meta := none }] }
        = some ((success, c), g1) →
      loadGame hdr g gamePath = some ({ g1 with core := c }, success) ∧
      g1.trace = g.trace ++ [CoreCall.retro_load_game
        { path := some gamePath, data := none, size := 0, meta := none }]) ∧
    (∀ (dlopen : String → Option (Module κ)) (core : κ) (heap : Nat → Byte)
        (calls : List HostCall) (g0 : Globals κ),
      (∀ corePath, HostCall.loadCore corePath ∈ calls → dlopen corePath = none) →
      hostSteps hdr dlopen (Globals.start core heap) calls = some g0 →
      loadGame hdr g0 gamePath = some (g0, false)) := by
  refine ⟨?_, ?_, ?_⟩
  · intro hnull
    simp only [loadGame, hnull]
  · intro f success c g1 hbound hexec
    constructor
    · unfold loadGame
      simp only []
      split
      · rename_i hnone
        rw [hbound] at hnone
        exact absurd hnone (by simp)
      · rename_i f2 hf2
        rw [hbound] at hf2
        simp only [Option.some.injEq] at hf2
        subst hf2
        rw [hexec]
    · exact congrArg Globals.trace (exec_frame hdr _ _ g1 _ hexec).1
  · intro dlopen core heap calls g0 hfail hsteps
    obtain ⟨_, hnull, _⟩ :=
      hostSteps_unloaded hdr dlopen calls (Globals.start core heap) g0 hfail ⟨rfl, rfl, rfl⟩
        hsteps
    simp only [loadGame, hnull]

/-- C13 on process start (unbound), and on a state whose `retro_load_game`
refuses every game (bound, result false). -/
theorem C13_loadGame_witness :
    (startGlobals.ptr_retro_load_game = none ∧
      loadGame libretro_h startGlobals "game.rom" = some (startGlobals, false)) ∧
    (refusingGlobals.ptr_retro_load_game = some (fun _ c => CoreProg.ret (false, c)) ∧
      loadGame libretro_h refusingGlobals "game.rom"
        = some ({ refusingGlobals with
                  trace := [CoreCall.retro_load_game
                    { path := some "game.rom", data := none, size := 0, meta := none }] },
                false)) :=
  ⟨⟨rfl, (C13_loadGame libretro_h startGlobals "game.rom").1 rfl⟩,
   ⟨rfl, ((C13_loadGame libretro_h refusingGlobals "game.rom").2.1
      (fun _ c => CoreProg.ret (false, c)) false ()
      { refusingGlobals with
        trace := [CoreCall.retro_load_game
          { path := some "game.rom", data := none, size := 0, meta := none }] }
      rfl rfl).1⟩⟩

/-! ## C14: `loadCore` -/

/-- C14: `loadCore` returns false exactly when `dlopen` opens nothing at the
path.  When a module opens, whichever of the symbols it exports, `loadCore`
does exactly this: it invokes each setter the module exports, once, on the
callback of the bridge that belongs to it, skips each setter the module lacks,
then invokes `retro_init` once if exported, and returns true; it returns
whenever those entry points return, its globals are the ones they leave, the
call log grows by exactly those calls and the function pointers hold the
symbols of the module.  A core that notes every call it receives has noted,
after the load, exactly those calls with exactly those callbacks, for every
set of exported symbols (a core without `retro_run` and `retro_load_game`
included), and the load has returned true. -/
theorem C14_loadCore {κ : Type} (hdr : LibretroH) (dlopen : String → Option (Module κ))
    (g : Globals κ) (corePath : String) :
    (dlopen corePath = none →
      loadCore hdr dlopen g corePath = some ({ g with coreHandle := none }, false)) ∧
    (∀ m, dlopen corePath = some m →
      loadCore hdr dlopen g corePath
        = (runEntries hdr (bindModule g m) (setupEntries m)).bind
            (fun g1 => some (g1, true))) ∧
    (∀ g1 result, loadCore hdr dlopen g corePath = some (g1, result) →
      (result = false ↔ dlopen corePath = none)) ∧
    (∀ m g1 result, dlopen corePath = some m →
      loadCore hdr dlopen g corePath = some (g1, result) →
      result = true ∧ g1.trace = g.trace ++ setupCalls m ∧ g1.bindings = m) ∧
    (∀ (e : Exports) (dl : String → Option (Module (List CoreCall)))
        (g0 : Globals (List CoreCall)),
      dl corePath = some (recordingModule e) →
      ∃ g1, loadCore hdr dl g0 corePath = some (g1, true) ∧
        g1.core = g0.core ++ setupCalls (recordingModule e) ∧
        g1.trace = g0.trace ++ setupCalls (recordingModule e) ∧
        g1.bindings = recordingModule e) := by
  refine ⟨?_, ?_, ?_, ?_, ?_⟩
  · intro hfail
    simp only [loadCore, hfail]
  · intro m hopen
    exact loadCore_eq hdr dlopen g corePath m hopen
  · intro g1 result h
    cases hd : dlopen corePath with
    | none =>
      simp only [loadCore, hd, Option.some.injEq, Prod.mk.injEq] at h
      simp [← h.2]
    | some m =>
      have ht := (loadCore_returned hdr dlopen g g1 corePath m result hd h).1
      simp [ht]
  · intro m g1 result hopen h
    obtain ⟨h1, _, h3, h4, _⟩ := loadCore_returned hdr dlopen g g1 corePath m result hopen h
    exact ⟨h1, h3, h4⟩
  · intro e dl g0 hopen
    have hrun := runEntries_recording hdr (setupEntries (recordingModule e))
      (recordingModule_entries e) (bindModule g0 (recordingModule e))
    rw [setupEntries_calls] at hrun
    refine ⟨{ bindModule g0 (recordingModule e) with
        trace := (bindModule g0 (recordingModule e)).trace ++ setupCalls (recordingModule e)
        core := (bindModule g0 (recordingModule e)).core ++ setupCalls (recordingModule e) },
      ?_, rfl, rfl, rfl⟩
    rw [loadCore_eq hdr dl g0 corePath (recordingModule e) hopen, hrun]
    rfl

/-- C14 on a path where nothing opens, and on a recording core that exports
neither `retro_run` nor `retro_load_game`: the load returns true and the core
has received the six setters, each with the callback of the bridge that
belongs to it, then `retro_init`, each once; and on a recording core that
exports nothing: the load returns true and the core has received no call. -/
theorem C14_loadCore_witness :
    ((fun _ => none : String → Option (Module Unit)) "missing.so" = none ∧
      loadCore libretro_h (fun _ => none) startGlobals "missing.so"
        = some ({ startGlobals with coreHandle := none }, false)) ∧
    ((fun _ => some (recordingModule partialExports) :
        String → Option (Module (List CoreCall))) "core.so"
        = some (recordingModule partialExports) ∧
      ∃ g1, loadCore libretro_h (fun _ => some (recordingModule partialExports))
          (Globals.start [] (fun _ => 0)) "core.so" = some (g1, true) ∧
        g1.core = [CoreCall.retro_set_environment Callback.environment_cb,
          CoreCall.retro_set_video_refresh Callback.video_refresh_cb,
          CoreCall.retro_set_audio_sample Callback.audio_sample_cb,
          CoreCall.retro_set_audio_sample_batch Callback.audio_sample_batch_cb,
          CoreCall.retro_set_input_poll Callback.input_poll_cb,
          CoreCall.retro_set_input_state Callback.input_state_cb,
          CoreCall.retro_init]) := by
  refine ⟨⟨rfl, (C14_loadCore libretro_h (fun _ => none) startGlobals "missing.so").1 rfl⟩,
    rfl, ?_⟩
  obtain ⟨g1, h1, h2, _⟩ :=
    (C14_loadCore libretro_h (fun _ => (none : Option (Module Unit))) startGlobals
      "core.so").2.2.2.2 partialExports (fun _ => some (recordingModule partialExports))
      (Globals.start [] (fun _ => 0)) rfl
  exact ⟨g1, h1, h2.trans rfl⟩

/-! ## C15: the audio queue has even length -/

/-- A `runFrame` that returns leaves a queue of even length. -/
theorem runFrame_queue_even {κ : Type} (hdr : LibretroH) (g : Globals κ) (bitmap : Bitmap)
    (audioArray : List Int) (r : FrameResult κ)
    (heven : g.g_audio_buffer.length % 2 = 0)
    (h : runFrame hdr g bitmap audioArray = some r) :
    r.globals.g_audio_buffer.length % 2 = 0 := by
  unfold runFrame at h
  cases hrun : g.ptr_retro_run with
  | none =>
    rw [hrun] at h
    simp only [Option.some.injEq] at h
    rw [← h]; exact heven
  | some run =>
    rw [hrun] at h
    simp only at h
    cases hc : callCore hdr g CoreCall.retro_run run with
    | none => rw [hc] at h; exact absurd h (by simp)
    | some g1 =>
      rw [hc] at h
      simp only at h
      cases hv : drainVideo g1 bitmap with
      | none => rw [hv] at h; exact absurd h (by simp)
      | some bitmap1 =>
        rw [hv] at h
        simp only [Option.some.injEq] at h
        rw [← h]
        show (drainAudio g1.g_audio_buffer audioArray).1.length % 2 = 0
        rw [drainAudio_queue]
        rfl

/-- One operation on the queue keeps its length even. -/
theorem queueStep_even {κ : Type} (hdr : LibretroH) (g g1 : Globals κ) (op : QueueOp)
    (heven : g.g_audio_buffer.length % 2 = 0) (h : queueStep hdr g op = some g1) :
    g1.g_audio_buffer.length % 2 = 0 := by
  cases op with
  | audioSample left right =>
    simp only [queueStep, Option.some.injEq] at h
    rw [← h]
    show ((g.g_audio_buffer ++ [left]) ++ [right]).length % 2 = 0
    simp only [List.length_append, List.length_singleton]
    omega
  | audioSampleBatch data frames =>
    simp only [queueStep] at h
    cases hb : audio_sample_batch_cb g data frames with
    | none => rw [hb] at h; exact absurd h (by simp)
    | some res =>
      obtain ⟨g2, r⟩ := res
      rw [hb] at h
      simp only [Option.map_some', Option.some.injEq] at h
      rw [← h, (audio_sample_batch_cb_frame g g2 data frames r hb).2]
      exact heven
  | runFrame bitmap audioArray =>
    simp only [queueStep] at h
    cases hr : runFrame hdr g bitmap audioArray with
    | none => rw [hr] at h; exact absurd h (by simp)
    | some r =>
      rw [hr] at h
      simp only [Option.map_some', Option.some.injEq] at h
      rw [← h]
      exact runFrame_queue_even hdr g bitmap audioArray r heven hr

/-- C15: starting from the empty queue, every sequence of `audioSample`,
`audioSampleBatch` (any frame count) and `runFrame` operations, whatever the
core does during the runs, leaves the audio queue with an even number of
samples. -/
theorem C15_queue_even {κ : Type} (hdr : LibretroH) (ops : List QueueOp) (g g1 : Globals κ)
    (hempty : g.g_audio_buffer = [])
    (hsteps : queueSteps hdr g ops = some g1) :
    g1.g_audio_buffer.length % 2 = 0 := by
  have hgen : ∀ (ops : List QueueOp) (g : Globals κ), g.g_audio_buffer.length % 2 = 0 →
      queueSteps hdr g ops = some g1 → g1.g_audio_buffer.length % 2 = 0 := by
    intro ops
    induction ops with
    | nil =>
      intro g heven h
      simp only [queueSteps, Option.some.injEq] at h
      rw [← h]; exact heven
    | cons op rest ih =>
      intro g heven h
      simp only [queueSteps] at h
      cases hs : queueStep hdr g op with
      | none => rw [hs] at h; exact absurd h (by simp)
      | some g2 =>
        rw [hs] at h
        exact ih g2 (queueStep_even hdr g g2 op heven hs) h
  exact hgen ops g (by rw [hempty]; rfl) hsteps

/-- C15 on a sample pair, a batch of one frame out of a longer array, a run
that queues two pairs and is drained into an array of three, and one more
pair: the queue ends as `[6, 7]`. -/
theorem C15_queue_even_witness :
    runBoundGlobals.g_audio_buffer = [] ∧
    queueSteps libretro_h runBoundGlobals
        [QueueOp.audioSample 1 2, QueueOp.audioSampleBatch [3, 4, 5] 1,
         QueueOp.runFrame { lockable := true, pixels := [] } [0, 0, 0],
         QueueOp.audioSample 6 7]
      = some { runBoundGlobals with g_audio_buffer := [6, 7], trace := [CoreCall.retro_run] } ∧
    ({ runBoundGlobals with g_audio_buffer := [6, 7], trace := [CoreCall.retro_run] }
      : Globals Unit).g_audio_buffer.length % 2 = 0 :=
  ⟨rfl, rfl,
   C15_queue_even libretro_h
     [QueueOp.audioSample 1 2, QueueOp.audioSampleBatch [3, 4, 5] 1,
      QueueOp.runFrame { lockable := true, pixels := [] } [0, 0, 0],
      QueueOp.audioSample 6 7]
     runBoundGlobals
     { runBoundGlobals with g_audio_buffer := [6, 7], trace := [CoreCall.retro_run] }
     rfl rfl⟩

/-! ## C16: a batch is appended whole -/

/-- C16: for every queue, every array `data` (its element count a `size_t`) and
every `frameCount` with `2 * frameCount` values in `data`, `audioSampleBatch`
returns exactly `frameCount` and the queue afterwards is the old queue followed
by the first `2 * frameCount` values of `data`, so it is longer by exactly
`2 * frameCount`; nothing else in the globals changes. -/
theorem C16_batch_appends {κ : Type} (g : Globals κ) (data : List Int) (frames : Nat)
    (hdata : 2 * frames ≤ data.length) (hsize : data.length < 2 ^ 64) :
    audio_sample_batch_cb g data frames
      = some ({ g with g_audio_buffer := g.g_audio_buffer ++ data.take (2 * frames) }, frames) ∧
    (g.g_audio_buffer ++ data.take (2 * frames)).length = g.g_audio_buffer.length + 2 * frames := by
  have hmod : frames * 2 % 2 ^ 64 = 2 * frames := by
    rw [Nat.mod_eq_of_lt (by omega)]; omega
  constructor
  · unfold audio_sample_batch_cb
    rw [hmod, if_pos hdata]
  · rw [List.length_append, List.length_take]
    omega

/-- C16 on a queue of two samples, three frames taken from an array of eight
values. -/
theorem C16_batch_appends_witness :
    2 * 3 ≤ ([1, 2, 3, 4, 5, 6, 7, 8] : List Int).length ∧
    ([1, 2, 3, 4, 5, 6, 7, 8] : List Int).length < 2 ^ 64 ∧
    audio_sample_batch_cb { startGlobals with g_audio_buffer := [9, 9] }
        [1, 2, 3, 4, 5, 6, 7, 8] 3
      = some ({ startGlobals with
                g_audio_buffer := [9, 9] ++ ([1, 2, 3, 4, 5, 6, 7, 8] : List Int).take (2 * 3) },
              3) :=
  ⟨by decide, by decide,
   (C16_batch_appends { startGlobals with g_audio_buffer := [9, 9] }
      [1, 2, 3, 4, 5, 6, 7, 8] 3 (by decide) (by decide)).1⟩

/-! ## C17: a button leaves the other buttons alone -/

/-- C17: for every prior mask, every button `id` and every other button `other`
(both from 0 to 15) and either value of `pressed`, `setInputState(id, pressed)`
succeeds, `inputState(0, joypad, index, other)` returns afterwards what it
returned before, and the frame buffer, its recorded dimensions and the audio
queue are untouched. -/
theorem C17_setInputState_frame {κ : Type} (hdr : LibretroH) (g : Globals κ)
    (id other index : Nat) (pressed : Bool)
    (hid : id ≤ 15) (hother : other ≤ 15) (hne : other ≠ id) :
    ∃ g1, setInputState g (id : Int) pressed = some g1 ∧
      input_state_cb hdr g1 0 hdr.RETRO_DEVICE_JOYPAD index other
        = input_state_cb hdr g 0 hdr.RETRO_DEVICE_JOYPAD index other ∧
      g1.g_video_buffer = g.g_video_buffer ∧
      g1.g_video_width = g.g_video_width ∧
      g1.g_video_height = g.g_video_height ∧
      g1.g_audio_buffer = g.g_audio_buffer := by
  have h32 : id < 32 := by omega
  have ho32 : other < 32 := by omega
  have ho16 : other < 16 := by omega
  have hne2 : ¬ id = other := fun h => hne h.symm
  cases pressed with
  | true =>
    refine ⟨_, setInputState_pressed g id h32, ?_, rfl, rfl, rfl, rfl⟩
    have hb : ((g.g_joypad_mask ||| (1 <<< id)) % 2 ^ 16).testBit other
        = g.g_joypad_mask.testBit other := by
      rw [testBit_set]; simp [ho16, hne2]
    rw [input_state_cb_eq hdr _ 0 _ index other (Or.inl ho32),
      input_state_cb_eq hdr g 0 _ index other (Or.inl ho32)]
    show some (if _ ∧ _ ∧ ((g.g_joypad_mask ||| (1 <<< id)) % 2 ^ 16).testBit other = true
      then (1 : Int) else 0) = _
    rw [hb]
  | false =>
    refine ⟨_, setInputState_released g id h32, ?_, rfl, rfl, rfl, rfl⟩
    have hb : ((g.g_joypad_mask &&& (2 ^ 32 - 1 - (1 <<< id))) % 2 ^ 16).testBit other
        = g.g_joypad_mask.testBit other := by
      rw [testBit_clear _ _ _ h32]; simp [ho16, hne2]
    rw [input_state_cb_eq hdr _ 0 _ index other (Or.inl ho32),
      input_state_cb_eq hdr g 0 _ index other (Or.inl ho32)]
    show some (if _ ∧ _ ∧
      ((g.g_joypad_mask &&& (2 ^ 32 - 1 - (1 <<< id))) % 2 ^ 16).testBit other = true
      then (1 : Int) else 0) = _
    rw [hb]

/-- C17 with buttons 0, 3 and 15 held: releasing button 3 leaves button 15
reading as before. -/
theorem C17_setInputState_frame_witness :
    (3 : Nat) ≤ 15 ∧ (15 : Nat) ≤ 15 ∧ (15 : Nat) ≠ 3 ∧
    ∃ g1, setInputState { startGlobals with g_joypad_mask := 32777 } ((3 : Nat) : Int) false
        = some g1 ∧
      input_state_cb libretro_h g1 0 libretro_h.RETRO_DEVICE_JOYPAD 0 15
        = input_state_cb libretro_h { startGlobals with g_joypad_mask := 32777 } 0
            libretro_h.RETRO_DEVICE_JOYPAD 0 15 :=
  ⟨by decide, by decide, by decide, by
    obtain ⟨g1, h1, h2, _⟩ :=
      C17_setInputState_frame libretro_h { startGlobals with g_joypad_mask := 32777 } 3 15 0
        false (by decide) (by decide) (by decide)
    exact ⟨g1, h1, h2⟩⟩

/-! ## C18: the bytes `runFrame` copies and the bytes `video_refresh_cb` allocates -/

/-- C18: for every pair of dimensions, the byte count of the copy in `runFrame`
(`width * height * 2` modulo 2^32) never exceeds the size `video_refresh_cb`
passes to `malloc` for them (`height * width` modulo 2^32, times 2, in
`size_t`), so in every state that satisfies the frame buffer invariant the
copy reads inside the allocated block; the two sizes are equal, and equal to
`width * height * 2`, whenever `width * height * 2 < 2^32`. -/
theorem C18_copy_within_allocation (κ : Type) (width height : Nat) :
    bitmap_copy_size width height ≤ video_buffer_size width height ∧
    (∀ (g : Globals κ) (buf : List Byte), FrameInv g → g.g_video_buffer = some buf →
      bitmap_copy_size g.g_video_width g.g_video_height ≤ buf.length) ∧
    (width * height * 2 < 2 ^ 32 →
      bitmap_copy_size width height = video_buffer_size width height ∧
      video_buffer_size width height = width * height * 2) := by
  have hle : ∀ w h : Nat, bitmap_copy_size w h ≤ video_buffer_size w h := by
    intro w h
    unfold bitmap_copy_size video_buffer_size
    rw [Nat.mul_comm h w]
    omega
  refine ⟨hle width height, ?_, ?_⟩
  · intro g buf hinv hbuf
    unfold FrameInv at hinv
    rw [hbuf] at hinv
    rw [hinv]
    exact hle _ _
  · intro hlt
    unfold bitmap_copy_size video_buffer_size
    rw [Nat.mul_comm height width]
    omega

/-- C18 at 256 x 240: both sizes are 122880. -/
theorem C18_copy_within_allocation_witness :
    256 * 240 * 2 < 2 ^ 32 ∧
    bitmap_copy_size 256 240 = video_buffer_size 256 240 ∧
    video_buffer_size 256 240 = 256 * 240 * 2 :=
  ⟨by decide, (C18_copy_within_allocation Unit 256 240).2.2 (by decide)⟩

end EmuLauncher
